import Mathlib

/-!
Verification development for the MOGA grinding-spindle optimizer
(SpindleSimulation.cpp / SpindleSimulation.hpp / SpindleParameters.hpp).

The C++ code is embedded shallowly:

* doubles are modelled as rationals; the transcendental ingredients of the
  physics formulas (the constant pi, the sine used by the dynamic load
  profile, and the real power used by polynomial mutation) are abstracted as
  parameters of a Phys record, so every theorem quantifies over them;
* the single mt19937 generator owned by the simulation object is modelled as
  a stream of draws in the unit interval, consumed in exactly the order the
  C++ code calls dist(rng); static_cast to an integral type is modelled by
  truncation toward zero (Int.tdiv);
* std::sort with a strict-weak comparator leaves the order of tied elements
  unspecified; it is modelled by the stable List.insertionSort on the same
  comparator, a legal refinement;
* fallible code (input validation, the defensive runtime checks of
  optimizeSpindleArrangement) is modelled with Except String.
-/

namespace Spindle

/-- Stream of pseudo-random draws: the value produced by the n-th call of
std::uniform_real_distribution(0.0, 1.0) applied to the optimizer's rng. -/
abbrev RNG := ℕ → ℚ

/-- Take one draw from the stream. -/
def RNG.next (g : RNG) : ℚ × RNG := (g 0, fun n => g (n + 1))

/-- The contract of std::uniform_real_distribution(0.0, 1.0): every draw
lies in the half-open unit interval. -/
def ValidRNG (g : RNG) : Prop := ∀ n, 0 ≤ g n ∧ g n < 1

/-- Truncation toward zero, the semantics of static_cast from double to an
integral type on an in-range value. -/
def truncQ (q : ℚ) : ℤ := Int.tdiv q.num q.den

/-- Abstracted transcendental ingredients of the physics formulas: the
constant M_PI, std::sin, and the real power x ^ e used by polynomial
mutation.  All theorems hold for every choice of them. -/
structure Phys where
  piQ : ℚ
  sinQ : ℚ → ℚ
  powQ : ℚ → ℚ → ℚ

/-- SpindleParameters (SpindleParameters.hpp): the design-variable record.
The C++ default constructor zero-initialises the numbers and leaves the
strings empty. -/
structure SpindleParameters where
  spindleType : String
  powerRating : ℚ
  maxSpeed : ℤ
  wheelDiameter : ℚ
  bearingType : String
  bearingPreload : ℚ
  coolingType : String
  lubricationType : String
  toolInterface : String
  alignmentTolerance : ℚ
deriving DecidableEq

instance : Inhabited SpindleParameters :=
  ⟨{ spindleType := "", powerRating := 0, maxSpeed := 0, wheelDiameter := 0,
     bearingType := "", bearingPreload := 0, coolingType := "",
     lubricationType := "", toolInterface := "", alignmentTolerance := 0 }⟩

/-- The fixed enumeration of spindle types (SpindleSimulation.cpp line 532). -/
def spindleTypes : List String := ["Belt-Driven", "Direct-Drive", "Motorized"]

/-- The fixed enumeration of bearing types (line 535). -/
def bearingTypes : List String := ["Angular Contact", "Hybrid Ceramic"]

/-- The fixed enumeration of cooling types (line 538). -/
def coolingTypes : List String := ["Liquid", "Air"]

/-- The fixed enumeration of lubrication types (line 541). -/
def lubricationTypes : List String := ["Grease", "Oil-Mist", "Oil-Air"]

/-- The fixed enumeration of tool interfaces (line 544). -/
def toolInterfaces : List String := ["Precision Collet", "Hydraulic Chuck", "HSK"]

/-- Uniform categorical pick: types[static_cast int (dist(rng) * size)]. -/
def pickCat (ts : List String) (r : ℚ) : String :=
  ts.getD (truncQ (r * ts.length)).toNat ""

/-- A 3-element objective vector [vibration, negated bearing life,
temperature rise], the value of Individual::objectives after evaluation. -/
structure Objs where
  o0 : ℚ
  o1 : ℚ
  o2 : ℚ
deriving DecidableEq

instance : Inhabited Objs := ⟨⟨0, 0, 0⟩⟩

/-- Component access, objectives[objIdx] for objIdx in 0..2. -/
def Objs.nth (o : Objs) : ℕ → ℚ
  | 0 => o.o0
  | 1 => o.o1
  | _ => o.o2

/-- An IEEE double that is either finite or plus infinity, the possible
values of Individual::crowdingDistance (no NaN can arise: objective values
are finite and the accumulation divisor is bounded away from zero). -/
inductive CrowdVal where
  | inf : CrowdVal
  | fin : ℚ → CrowdVal
deriving DecidableEq

instance : Inhabited CrowdVal := ⟨.fin 0⟩

/-- IEEE addition of a finite double to a crowding value: infinity absorbs. -/
def CrowdVal.addQ : CrowdVal → ℚ → CrowdVal
  | .inf, _ => .inf
  | .fin a, q => .fin (a + q)

/-- IEEE strict comparison a gt b on a domain without NaN. -/
def CrowdVal.gtb : CrowdVal → CrowdVal → Bool
  | .inf, .inf => false
  | .inf, .fin _ => true
  | .fin _, .inf => false
  | .fin a, .fin b => decide (b < a)

/-- Individual (SpindleSimulation.hpp lines 33-39).  The C++ default
constructor gives rank 0 and crowdingDistance 0.0 and an empty objective
vector; objectives are modelled by the zero vector until the oracle writes
them, which in every reachable path happens before they are read. -/
structure Individual where
  params : SpindleParameters
  objs : Objs
  rank : ℤ
  crowdingDistance : CrowdVal
deriving DecidableEq

instance : Inhabited Individual :=
  ⟨{ params := default, objs := default, rank := 0, crowdingDistance := .fin 0 }⟩

/-! ## Physics formulas used by the objective oracle (evaluateObjectives) -/

/-- estimateLoad (SpindleSimulation.cpp lines 390-392). -/
def estimateLoad (p : SpindleParameters) : ℚ :=
  (p.wheelDiameter / 1000) * ((p.maxSpeed : ℚ) / 1000) * 100

/-- estimateVibration, no-load overload (lines 367-373). -/
def estimateVibration (p : SpindleParameters) : ℚ :=
  let baseVibration : ℚ := if p.bearingType = "Hybrid Ceramic" then 4/10 else 6/10
  let speedFactor : ℚ := (p.maxSpeed : ℚ) / 10000
  let alignmentFactor : ℚ := if p.alignmentTolerance > 2/1000 then 12/10 else 1
  let toolFactor : ℚ := if p.toolInterface = "HSK" then 9/10 else 1
  baseVibration * speedFactor * alignmentFactor * toolFactor

/-- estimateTemperatureRise, no-load overload (lines 346-351). -/
def estimateTemperatureRise (p : SpindleParameters) : ℚ :=
  let baseTemp : ℚ := if p.coolingType = "Liquid" then 18 else 22
  let speedFactor : ℚ := (p.maxSpeed : ℚ) / 10000
  let preloadFactor : ℚ := p.bearingPreload / 500
  baseTemp + speedFactor * 5 + preloadFactor * 2

/-- Number of 0.1-second steps: static_cast int (duration / timeStep)
(line 398). -/
def loadSteps (duration : ℚ) : ℕ := (truncQ (duration / (1/10))).toNat

/-- One iteration of the load-profile loop (lines 401-407): sinusoidal
variation, a 10 percent chance of a 1.5x spike, clamp at zero. -/
def loadAt (phys : Phys) (baseLoad : ℚ) (i : ℕ) (r : ℚ) : ℚ :=
  let time : ℚ := (i : ℚ) * (1/10)
  let variation : ℚ := phys.sinQ (2 * phys.piQ * time / 2) * (3/10)
  let load : ℚ := baseLoad * (1 + variation)
  let load2 : ℚ := if r < 1/10 then load * (3/2) else load
  max 0 load2

/-- The loop of generateDynamicLoadProfile, consuming one draw per step. -/
def loadLoop (phys : Phys) (baseLoad : ℚ) : ℕ → ℕ → RNG → List ℚ × RNG
  | _, 0, g => ([], g)
  | i, n + 1, g =>
    let (r, g) := RNG.next g
    let (rest, g2) := loadLoop phys baseLoad (i + 1) n g
    (loadAt phys baseLoad i r :: rest, g2)

/-- generateDynamicLoadProfile (lines 394-409). -/
def generateDynamicLoadProfile (phys : Phys) (p : SpindleParameters)
    (duration loadFactor : ℚ) (g : RNG) : List ℚ × RNG :=
  loadLoop phys (estimateLoad p * loadFactor) 0 (loadSteps duration) g

/-- calculateBearingL10Life (lines 411-422). -/
def calculateBearingL10Life (p : SpindleParameters) (loadProfile : List ℚ) : ℚ :=
  let C : ℚ := if p.bearingType = "Hybrid Ceramic" then 50 else 40
  let avgLoad : ℚ := loadProfile.sum / (loadProfile.length : ℚ)
  let P : ℚ := (avgLoad + p.bearingPreload) / 1000
  let lifeAdjustmentFactor : ℚ :=
    (if p.lubricationType = "Grease" then 8/10
     else if p.lubricationType = "Oil-Air" then 12/10 else 1) *
    (if p.coolingType = "Liquid" then 11/10 else 1)
  let L10 : ℚ := (C / P) ^ 3 * 1000000
  let L10h : ℚ := L10 / (60 * (p.maxSpeed : ℚ)) * lifeAdjustmentFactor
  max 1000 L10h

/-- calculateWheelWear (lines 441-451). -/
def calculateWheelWear (phys : Phys) (p : SpindleParameters)
    (loadProfile : List ℚ) (duration : ℚ) : ℚ :=
  let wearCoefficient : ℚ := 1/1000000
  let wheelDiameter : ℚ := p.wheelDiameter / 1000
  let wheelThickness : ℚ := 1/50
  let avgLoad : ℚ := loadProfile.sum / (loadProfile.length : ℚ)
  let peripheralSpeed : ℚ := phys.piQ * wheelDiameter * (p.maxSpeed : ℚ) / 60
  let slidingDistance : ℚ := peripheralSpeed * duration
  let wearVolume : ℚ := wearCoefficient * avgLoad * slidingDistance
  let diameterReduction : ℚ := wearVolume / (phys.piQ * wheelDiameter * wheelThickness * 1000)
  min diameterReduction (p.wheelDiameter * (2/10))

/-- calculateWearInducedVibration (lines 453-466). -/
def calculateWearInducedVibration (phys : Phys) (p : SpindleParameters) (wear : ℚ) : ℚ :=
  let wheelDiameter : ℚ := p.wheelDiameter / 1000
  let wheelThickness : ℚ := 1/50
  let density : ℚ := 2500
  let wearVolume : ℚ := wear * phys.piQ * wheelDiameter * wheelThickness * 1000
  let imbalanceMass : ℚ := density * wearVolume * (1/1000000000)
  let wheelMass : ℚ := density * phys.piQ * (wheelDiameter / 2) ^ 2 * wheelThickness
  let eccentricity : ℚ := imbalanceMass * (wheelDiameter / 2) / wheelMass
  let omega : ℚ := 2 * phys.piQ * (p.maxSpeed : ℚ) / 60
  let imbalanceForce : ℚ := imbalanceMass * omega ^ 2 * eccentricity
  let systemStiffness : ℚ := 100000000
  let vibrationAmplitude : ℚ := imbalanceForce / systemStiffness * 1000
  min vibrationAmplitude 2

/-- The sentinel worst-case objective vector assigned by the catch branch of
evaluateObjectives (line 566): huge vibration, near-zero (negated) bearing
life, huge temperature. -/
def sentinelObjs : Objs := ⟨10000000000, -(1/10000000000), 10000000000⟩

/-- evaluateObjectives (lines 550-568).  The only failure reachable with the
modelled arithmetic is the explicit throw on an empty load profile; the
catch converts it to the sentinel vector instead of propagating it. -/
def evaluateObjectives (phys : Phys) (p : SpindleParameters)
    (duration loadFactor : ℚ) (g : RNG) : Objs × RNG :=
  let (loadProfile, g2) := generateDynamicLoadProfile phys p duration loadFactor g
  if loadProfile.isEmpty then (sentinelObjs, g2)
  else
    let vibration := estimateVibration p
    let tempRise := estimateTemperatureRise p
    let bearingLife := calculateBearingL10Life p loadProfile
    let wheelWear := calculateWheelWear phys p loadProfile duration
    let wearVibration := calculateWearInducedVibration phys p wheelWear
    ({ o0 := vibration + wearVibration, o1 := -bearingLife, o2 := tempRise }, g2)

/-! ## Dominance and non-dominated sorting -/

/-- dominates (lines 570-577): a is nowhere worse and somewhere strictly
better, objectives minimised.  The C++ loop (return false on a[i] greater
than b[i], flag on a[i] less than b[i]) is unrolled over the three
components; on a total order without NaN the two forms agree. -/
def dominates (a b : Objs) : Bool :=
  (decide (a.o0 ≤ b.o0) && decide (a.o1 ≤ b.o1) && decide (a.o2 ≤ b.o2)) &&
  (decide (a.o0 < b.o0) || decide (a.o1 < b.o1) || decide (a.o2 < b.o2))

/-- Objective vector of population index i (population[i].objectives). -/
def objAt (objs : List Objs) (i : ℕ) : Objs := objs.getD i default

/-- Index-level dominance inside one population; the i = j case is skipped
by the C++ pair loop. -/
def domIdx (objs : List Objs) (i j : ℕ) : Bool :=
  decide (i ≠ j) && dominates (objAt objs i) (objAt objs j)

/-- dominationCount[j] after the pair loop (lines 589-597): how many
population members dominate j. -/
def count0 (objs : List Objs) (j : ℕ) : ℕ :=
  ((List.range objs.length).filter (fun i => domIdx objs i j)).length

/-- dominatedBy[i] after the pair loop: the indices i dominates, in
ascending order (the order of the inner j loop). -/
def dominatedBy (objs : List Objs) (i : ℕ) : List ℕ :=
  (List.range objs.length).filter (fun j => domIdx objs i j)

/-- fronts[0]: the indices with domination count zero, in ascending order
(the order of the outer i loop, lines 598-603). -/
def front0 (objs : List Objs) : List ℕ :=
  (List.range objs.length).filter (fun i => count0 objs i = 0)

/-- Process a list of decrements (lines 610-616): each j in the list has its
count decremented; when a count reaches exactly zero the index joins the
next front, in hit order. -/
def applyDecs : List ℕ → (ℕ → ℤ) → (ℕ → ℤ) × List ℕ
  | [], c => (c, [])
  | j :: ds, c =>
    let cj := c j - 1
    let c2 : ℕ → ℤ := fun k => if k = j then cj else c k
    let out := applyDecs ds c2
    (out.1, if cj = 0 then j :: out.2 else out.2)

/-- The front-peeling while loop (lines 606-620) after the first front:
process the current front, collect the next one, stop when it is empty.
The fuel argument is an upper bound on the number of remaining fronts;
objs.length always suffices. -/
def peelRest (objs : List Objs) : ℕ → (ℕ → ℤ) → List ℕ → List (List ℕ)
  | 0, _, _ => []
  | fuel + 1, c, F =>
    let step := applyDecs (F.flatMap (dominatedBy objs)) c
    if step.2.isEmpty then [] else step.2 :: peelRest objs fuel step.1 step.2

/-- The complete front partition computed by nonDominatedSorting
(lines 584-620) and by the identical in-loop recomputation
(lines 812-848). -/
def frontsOf (objs : List Objs) : List (List ℕ) :=
  let F0 := front0 objs
  if F0.isEmpty then []
  else F0 :: peelRest objs objs.length (fun j => (count0 objs j : ℤ)) F0

/-- Rank written by the sorting pass: members of fronts[k] get rank k + 1;
an index joining no front keeps its previous rank (the code only ever
assigns ranks to indices that join a front). -/
def rankOf (fronts : List (List ℕ)) (stale : ℤ) (j : ℕ) : ℤ :=
  match fronts.findIdx? (fun F => F.contains j) with
  | some k => (k : ℤ) + 1
  | none => stale

/-- Ascending sort of front indices by one objective, modelling
std::sort with the comparator objectives[objIdx] less-than
(lines 632-634 and 867-870).  Ties are resolved stably, one of the
outcomes std::sort may produce. -/
def sortIdx (objs : List Objs) (objIdx : ℕ) (F : List ℕ) : List ℕ :=
  F.insertionSort (fun a b => (objAt objs a).nth objIdx ≤ (objAt objs b).nth objIdx)

/-- Pointwise update of one crowding distance. -/
def setCd (cds : ℕ → CrowdVal) (j : ℕ) (v : CrowdVal) : ℕ → CrowdVal :=
  fun k => if k = j then v else cds k

/-- One interior-member accumulation of the crowding loop (lines 639-644 and
880-888): add the normalised neighbour gap onto whatever crowding value the
member at sorted position i currently holds. -/
def crowdAccum (key : ℕ → ℚ) (sorted : List ℕ) (objRange : ℚ)
    (c : ℕ → CrowdVal) (i : ℕ) : ℕ → CrowdVal :=
  setCd c (sorted.getD i 0) ((c (sorted.getD i 0)).addQ
    ((key (sorted.getD (i + 1) 0) - key (sorted.getD (i - 1) 0)) / objRange))

/-- Crowding update of one front for one objective (lines 631-645 and
866-889): sort by the objective, force both extremes to infinity, then,
unless the objective range is below 1e-10, add the normalised neighbour
gap to each interior member.  The addition accumulates on whatever value
the member currently holds; nothing is reset to zero first. -/
def crowdObj (objs : List Objs) (F : List ℕ) (objIdx : ℕ)
    (cds : ℕ → CrowdVal) : ℕ → CrowdVal :=
  let sorted := sortIdx objs objIdx F
  let key := fun j => (objAt objs j).nth objIdx
  let c1 := setCd cds (sorted.headD 0) .inf
  let c2 := setCd c1 (sorted.getLastD 0) .inf
  let objRange := key (sorted.getLastD 0) - key (sorted.headD 0)
  if |objRange| < 1/10000000000 then c2
  else (List.range' 1 (sorted.length - 2)).foldl (crowdAccum key sorted objRange) c2

/-- Crowding update of one front across the three objectives
(lines 626-645 and 857-889): a front of size at most two gets infinity
throughout; otherwise the per-objective updates run in order. -/
def crowdFront (objs : List Objs) (F : List ℕ) (cds : ℕ → CrowdVal) : ℕ → CrowdVal :=
  if F.length ≤ 2 then F.foldl (fun c j => setCd c j .inf) cds
  else [0, 1, 2].foldl (fun c objIdx => crowdObj objs F objIdx c) cds

/-- Crowding update over all fronts (lines 623-646 and 853-890). -/
def crowdAll (objs : List Objs) (fronts : List (List ℕ)) (cds : ℕ → CrowdVal) :
    ℕ → CrowdVal :=
  fronts.foldl (fun c F => crowdFront objs F c) cds

/-- Write the freshly computed rank and crowding distance of each index back
into the population. -/
def updateInds (fronts : List (List ℕ)) (cds : ℕ → CrowdVal) :
    ℕ → List Individual → List Individual
  | _, [] => []
  | i, ind :: rest =>
    { ind with rank := rankOf fronts ind.rank i, crowdingDistance := cds i } ::
      updateInds fronts cds (i + 1) rest

/-- nonDominatedSorting (lines 579-650): fronts, ranks, crowding distances
of a whole population.  Crowding accumulates on the crowding distances the
individuals already carry. -/
def nonDominatedSorting (pop : List Individual) : List Individual :=
  let objs := pop.map (·.objs)
  let fronts := frontsOf objs
  let cds := crowdAll objs fronts (fun j => (pop.getD j default).crowdingDistance)
  updateInds fronts cds 0 pop

/-! ## Variation operators -/

/-- generateRandomParameters (lines 520-548), consuming ten draws in the
order of the C++ statements. -/
def generateRandomParameters (g : RNG) : SpindleParameters × RNG :=
  let (r1, g) := RNG.next g
  let (r2, g) := RNG.next g
  let (r3, g) := RNG.next g
  let (r4, g) := RNG.next g
  let (r5, g) := RNG.next g
  let (r6, g) := RNG.next g
  let (r7, g) := RNG.next g
  let (r8, g) := RNG.next g
  let (r9, g) := RNG.next g
  let (r10, g) := RNG.next g
  ({ powerRating := 1/2 + r1 * (50 - 1/2),
     maxSpeed := truncQ (1000 + r2 * (30000 - 1000)),
     wheelDiameter := 50 + r3 * (1000 - 50),
     bearingPreload := 100 + r4 * (2000 - 100),
     alignmentTolerance := 1/10000 + r5 * (1/100 - 1/10000),
     spindleType := pickCat spindleTypes r6,
     bearingType := pickCat bearingTypes r7,
     coolingType := pickCat coolingTypes r8,
     lubricationType := pickCat lubricationTypes r9,
     toolInterface := pickCat toolInterfaces r10 }, g)

/-- The BLX-alpha blend of crossover (lines 658-663), alpha = 1/2, clamped
to the legal bounds of the field. -/
def blend (p1 p2 lo hi r : ℚ) : ℚ :=
  let d := |p1 - p2|
  let lower := min p1 p2 - (1/2) * d
  let upper := max p1 p2 + (1/2) * d
  max lo (min hi (lower + r * (upper - lower)))

/-- crossover (lines 652-679): BLX-alpha on the five continuous fields (one
draw each, maxSpeed truncated to int), then uniform crossover on the five
categorical fields (one draw each). -/
def crossover (p1 p2 : SpindleParameters) (g : RNG) : SpindleParameters × RNG :=
  let (r1, g) := RNG.next g
  let (r2, g) := RNG.next g
  let (r3, g) := RNG.next g
  let (r4, g) := RNG.next g
  let (r5, g) := RNG.next g
  let (r6, g) := RNG.next g
  let (r7, g) := RNG.next g
  let (r8, g) := RNG.next g
  let (r9, g) := RNG.next g
  let (r10, g) := RNG.next g
  ({ powerRating := blend p1.powerRating p2.powerRating (1/2) 50 r1,
     maxSpeed := truncQ (blend (p1.maxSpeed : ℚ) (p2.maxSpeed : ℚ) 1000 30000 r2),
     wheelDiameter := blend p1.wheelDiameter p2.wheelDiameter 50 1000 r3,
     bearingPreload := blend p1.bearingPreload p2.bearingPreload 100 2000 r4,
     alignmentTolerance :=
       blend p1.alignmentTolerance p2.alignmentTolerance (1/10000) (1/100) r5,
     spindleType := if r6 < 1/2 then p1.spindleType else p2.spindleType,
     bearingType := if r7 < 1/2 then p1.bearingType else p2.bearingType,
     coolingType := if r8 < 1/2 then p1.coolingType else p2.coolingType,
     lubricationType := if r9 < 1/2 then p1.lubricationType else p2.lubricationType,
     toolInterface := if r10 < 1/2 then p1.toolInterface else p2.toolInterface }, g)

/-- The polynomial-mutation formula applied on trigger (lines 688-695),
distribution index eta = 20, clamped to bounds; r2 is the inner draw. -/
def polyMutate (phys : Phys) (value lo hi r2 : ℚ) : ℚ :=
  let delta1 := (value - lo) / (hi - lo)
  let delta2 := (hi - value) / (hi - lo)
  let deltaq :=
    if r2 ≤ 1/2 then phys.powQ (2 * r2) (1/21) - 1
    else 1 - phys.powQ (2 * (1 - r2)) (1/21)
  let delta := (if deltaq < 0 then delta1 else delta2) * deltaq
  max lo (min hi (value + delta * (hi - lo)))

/-- mutateContinuous (lines 686-696): one trigger draw; on trigger (draw
below 0.1) a second draw feeds the polynomial formula. -/
def mutateContinuous (phys : Phys) (value lo hi : ℚ) (g : RNG) : ℚ × RNG :=
  let (r1, g) := RNG.next g
  if r1 ≥ 1/10 then (value, g)
  else
    let (r2, g) := RNG.next g
    (polyMutate phys value lo hi r2, g)

/-- One categorical mutation site (lines 705-724): one trigger draw; on
trigger a second draw resamples uniformly from the enumeration. -/
def mutateCat (ts : List String) (value : String) (g : RNG) : String × RNG :=
  let (r1, g) := RNG.next g
  if r1 < 1/10 then
    let (r2, g) := RNG.next g
    (pickCat ts r2, g)
  else (value, g)

/-- mutate (lines 681-725): the five continuous fields in statement order
(maxSpeed truncated to int), then the five categorical sites. -/
def mutate (phys : Phys) (p : SpindleParameters) (g : RNG) : SpindleParameters × RNG :=
  let (pr, g) := mutateContinuous phys p.powerRating (1/2) 50 g
  let (ms, g) := mutateContinuous phys (p.maxSpeed : ℚ) 1000 30000 g
  let (wd, g) := mutateContinuous phys p.wheelDiameter 50 1000 g
  let (bp, g) := mutateContinuous phys p.bearingPreload 100 2000 g
  let (at2, g) := mutateContinuous phys p.alignmentTolerance (1/10000) (1/100) g
  let (st, g) := mutateCat spindleTypes p.spindleType g
  let (bt, g) := mutateCat bearingTypes p.bearingType g
  let (ct, g) := mutateCat coolingTypes p.coolingType g
  let (lt, g) := mutateCat lubricationTypes p.lubricationType g
  let (ti, g) := mutateCat toolInterfaces p.toolInterface g
  ({ powerRating := pr, maxSpeed := truncQ ms, wheelDiameter := wd,
     bearingPreload := bp, alignmentTolerance := at2, spindleType := st,
     bearingType := bt, coolingType := ct, lubricationType := lt,
     toolInterface := ti }, g)

/-! ## The generational loop (optimizeSpindleArrangement) -/

/-- The arguments of optimizeSpindleArrangement. -/
structure Config where
  duration : ℚ
  loadFactor : ℚ
  populationSize : ℤ
  generations : ℤ
deriving DecidableEq

/-- The per-offspring parent selection of the main loop (lines 774-788): two
uniform index draws scaled by populationSize, a defensive bounds check, and
a single rank/crowding comparison that decides which of the two drawn
individuals is passed to crossover first. -/
def selectParents (populationSize : ℤ) (pop : List Individual) (g : RNG) :
    Except String ((Individual × Individual) × RNG) :=
  let (r1, g) := RNG.next g
  let (r2, g) := RNG.next g
  let idx1 := (truncQ (r1 * (populationSize : ℚ))).toNat
  let idx2 := (truncQ (r2 * (populationSize : ℚ))).toNat
  if idx1 ≥ pop.length ∨ idx2 ≥ pop.length then
    .error "Invalid tournament indices"
  else
    let parent1 := pop.getD idx1 default
    let parent2 := pop.getD idx2 default
    if parent1.rank < parent2.rank ∨
        (parent1.rank = parent2.rank ∧
          CrowdVal.gtb parent1.crowdingDistance parent2.crowdingDistance) then
      .ok ((parent1, parent2), g)
    else
      .ok ((parent2, parent1), g)

/-- One offspring of the main loop (lines 773-795): select an ordered
parent pair, crossover, mutate, evaluate.  A fresh offspring carries
rank 0 and crowding distance 0 from the Individual default constructor. -/
def makeOffspring (phys : Phys) (cfg : Config) (pop : List Individual) (g : RNG) :
    Except String (Individual × RNG) :=
  match selectParents cfg.populationSize pop g with
  | .error e => .error e
  | .ok ((parent1, parent2), g) =>
    let (childParams, g) := crossover parent1.params parent2.params g
    let (mutated, g) := mutate phys childParams g
    let (objs, g) := evaluateObjectives phys mutated cfg.duration cfg.loadFactor g
    .ok ({ params := mutated, objs := objs, rank := 0, crowdingDistance := .fin 0 }, g)

/-- The offspring while loop: exactly populationSize iterations, one
offspring and one oracle call each.  The second component counts the
oracle calls made before a defensive check aborted the loop, if one did. -/
def offspringLoop (phys : Phys) (cfg : Config) (pop : List Individual) :
    ℕ → RNG → Except String (List Individual × RNG) × ℕ
  | 0, g => (.ok ([], g), 0)
  | n + 1, g =>
    match makeOffspring phys cfg pop g with
    | .error e => (.error e, 0)
    | .ok (child, g) =>
      match offspringLoop phys cfg pop n g with
      | (.error e, k) => (.error e, k + 1)
      | (.ok (rest, g2), k) => (.ok (child :: rest, g2), k + 1)

/-- Environmental selection (lines 895-922): add whole fronts while they
fit, then fill the remainder from the next front sorted by descending
crowding distance.  The per-index bound guards of the C++ code are kept as
filters. -/
def envSelect (combined : List Individual) (populationSize : ℕ) :
    List (List ℕ) → List Individual → List Individual
  | [], acc => acc
  | F :: rest, acc =>
    if acc.length + F.length ≤ populationSize then
      envSelect combined populationSize rest
        (acc ++ (F.filter (fun i => i < combined.length)).map
          (fun i => combined.getD i default))
    else if acc.length < populationSize then
      let sorted := F.insertionSort (fun a b =>
        CrowdVal.gtb (combined.getD b default).crowdingDistance
          (combined.getD a default).crowdingDistance = false)
      acc ++ ((sorted.take (populationSize - acc.length)).filter
        (fun i => i < combined.length)).map (fun i => combined.getD i default)
    else acc

/-- One generation of the main loop (lines 764-929): offspring creation,
combination, recomputation of fronts, ranks and crowding distances on the
combined population, environmental selection, defensive emptiness checks. -/
def generationStep (phys : Phys) (cfg : Config) (pop : List Individual) (g : RNG) :
    Except String (List Individual × RNG) × ℕ :=
  match offspringLoop phys cfg pop cfg.populationSize.toNat g with
  | (.error e, k) => (.error e, k)
  | (.ok (offspring, g2), k) =>
    let combined := pop ++ offspring
    if combined.isEmpty then (.error "Combined population is empty", k)
    else
      let objs := combined.map (·.objs)
      let fronts := frontsOf objs
      let cds := crowdAll objs fronts
        (fun j => (combined.getD j default).crowdingDistance)
      let combined2 := updateInds fronts cds 0 combined
      let newPop := envSelect combined2 cfg.populationSize.toNat fronts []
      if newPop.isEmpty then (.error "Population is empty after selection", k)
      else (.ok (newPop, g2), k)

/-- The generation for loop, recording the population at the end of every
generation. -/
def genLoop (phys : Phys) (cfg : Config) :
    ℕ → List Individual → RNG → Except String (List (List Individual) × RNG) × ℕ
  | 0, _, g => (.ok ([], g), 0)
  | n + 1, pop, g =>
    match generationStep phys cfg pop g with
    | (.error e, k) => (.error e, k)
    | (.ok (pop2, g2), k) =>
      match genLoop phys cfg n pop2 g2 with
      | (.error e, k2) => (.error e, k + k2)
      | (.ok (tr, g3), k2) => (.ok (pop2 :: tr, g3), k + k2)

/-- The initialisation loop (lines 754-759): random parameters and one
oracle call per individual. -/
def initLoop (phys : Phys) (cfg : Config) : ℕ → RNG → List Individual × RNG
  | 0, g => ([], g)
  | n + 1, g =>
    let (p, g) := generateRandomParameters g
    let (objs, g) := evaluateObjectives phys p cfg.duration cfg.loadFactor g
    let out := initLoop phys cfg n g
    ({ params := p, objs := objs, rank := 0, crowdingDistance := .fin 0 } :: out.1,
      out.2)

/-- The observable outcome of one optimizer run: the population after the
initial ranking, the population at the end of every generation, and the
reported Pareto front (the rank-1 members of the final population). -/
structure RunResult where
  initialPop : List Individual
  trace : List (List Individual)
  pareto : List Individual
deriving DecidableEq

/-- Final population of a run (the last recorded generation, or the initial
population when the generation count is zero, which validation excludes). -/
def RunResult.finalPop (res : RunResult) : List Individual :=
  res.trace.getLastD res.initialPop

/-- optimizeSpindleArrangement (lines 727-980): validation, initialisation,
initial non-dominated sorting, the generational loop, extraction of the
rank-1 individuals.  The second component counts the objective-oracle
calls (evaluateObjectives invocations) the run performs. -/
def optimizeSpindleArrangement (phys : Phys) (cfg : Config) (g : RNG) :
    Except String RunResult × ℕ :=
  if cfg.duration ≤ 0 then (.error "Duration must be positive", 0)
  else if cfg.loadFactor < 1/2 ∨ cfg.loadFactor > 2 then
    (.error "Load factor must be between 0.5 and 2.0", 0)
  else if cfg.populationSize < 10 ∨ cfg.generations < 1 then
    (.error "Population size must be at least 10 and generations at least 1", 0)
  else
    let init := initLoop phys cfg cfg.populationSize.toNat g
    let pop1 := nonDominatedSorting init.1
    match genLoop phys cfg cfg.generations.toNat pop1 init.2 with
    | (.error e, k) => (.error e, cfg.populationSize.toNat + k)
    | (.ok (tr, _), k) =>
      let res : RunResult :=
        { initialPop := pop1, trace := tr,
          pareto := (tr.getLastD pop1).filter (fun ind => ind.rank = 1) }
      (.ok res, cfg.populationSize.toNat + k)

/-! ## Validity predicates and spec-side definitions -/

/-- The Parameter-Space invariant of the specification: every continuous
field within its bounds, every categorical field a member of its fixed
enumeration. -/
def ParamsValid (p : SpindleParameters) : Prop :=
  1/2 ≤ p.powerRating ∧ p.powerRating ≤ 50 ∧
  1000 ≤ p.maxSpeed ∧ p.maxSpeed ≤ 30000 ∧
  50 ≤ p.wheelDiameter ∧ p.wheelDiameter ≤ 1000 ∧
  100 ≤ p.bearingPreload ∧ p.bearingPreload ≤ 2000 ∧
  1/10000 ≤ p.alignmentTolerance ∧ p.alignmentTolerance ≤ 1/100 ∧
  p.spindleType ∈ spindleTypes ∧ p.bearingType ∈ bearingTypes ∧
  p.coolingType ∈ coolingTypes ∧ p.lubricationType ∈ lubricationTypes ∧
  p.toolInterface ∈ toolInterfaces

/-- A configuration that passes the input validation of
optimizeSpindleArrangement. -/
def ValidConfig (cfg : Config) : Prop :=
  0 < cfg.duration ∧ 1/2 ≤ cfg.loadFactor ∧ cfg.loadFactor ≤ 2 ∧
  10 ≤ cfg.populationSize ∧ 1 ≤ cfg.generations

/-- Modelled from the spec, for comparison with selectParents: one binary
tournament as claim C8 describes it — two individuals drawn uniformly at
random with replacement, the winner the one with the lower rank, or on a
rank tie the one with the larger crowding distance. -/
def tournamentPick (populationSize : ℤ) (pop : List Individual) (g : RNG) :
    Individual × RNG :=
  let (r1, g) := RNG.next g
  let (r2, g) := RNG.next g
  let a := pop.getD (truncQ (r1 * (populationSize : ℚ))).toNat default
  let b := pop.getD (truncQ (r2 * (populationSize : ℚ))).toNat default
  if a.rank < b.rank ∨
      (a.rank = b.rank ∧ CrowdVal.gtb a.crowdingDistance b.crowdingDistance) then
    (a, g)
  else (b, g)

/-- Modelled from the spec, for comparison with selectParents: the parent
selection claim C8 describes — two independent binary tournaments, four
random draws in total, picking the ordered parent pair. -/
def selectParentsTwoTournaments (populationSize : ℤ) (pop : List Individual)
    (g : RNG) : (Individual × Individual) × RNG :=
  let (w1, g) := tournamentPick populationSize pop g
  let (w2, g) := tournamentPick populationSize pop g
  ((w1, w2), g)

/-! ## Concrete data for counterexamples and witnesses -/

/-- A transcendental-parameter instantiation used for concrete runs. -/
def physW : Phys := { piQ := 0, sinQ := fun _ => 0, powQ := fun _ _ => 0 }

/-- The constant-zero draw stream, a valid uniform stream. -/
def gW : RNG := fun _ => 0

/-- A concrete valid parameter set. -/
def paramsW : SpindleParameters :=
  { spindleType := "Motorized", powerRating := 10, maxSpeed := 12000,
    wheelDiameter := 200, bearingType := "Hybrid Ceramic", bearingPreload := 500,
    coolingType := "Liquid", lubricationType := "Oil-Air", toolInterface := "HSK",
    alignmentTolerance := 1/1000 }

/-- Three mutually non-dominating objective vectors in which index 1 ties
index 0 for the minimum of objective 0. -/
def cexPop9 : List Individual :=
  [{ params := default, objs := ⟨0, 0, 10⟩, rank := 0, crowdingDistance := .fin 0 },
   { params := default, objs := ⟨0, 5, 5⟩, rank := 0, crowdingDistance := .fin 0 },
   { params := default, objs := ⟨1, 9, 0⟩, rank := 0, crowdingDistance := .fin 0 }]

/-- Four mutually non-dominating objective vectors whose index 1 stays
interior for all three objectives. -/
def cexObjs2 : List Objs := [⟨0, 3, 3⟩, ⟨1, 1, 1⟩, ⟨3, 0, 3⟩, ⟨3, 3, 0⟩]

/-- An individual with rank i + 1 and parameters distinguished by i. -/
def selInd (i : ℤ) : Individual :=
  { params :=
      { spindleType := "", powerRating := 0, maxSpeed := i, wheelDiameter := 0,
        bearingType := "", bearingPreload := 0, coolingType := "",
        lubricationType := "", toolInterface := "", alignmentTolerance := 0 },
    objs := ⟨(i : ℚ), 0, 0⟩, rank := i + 1, crowdingDistance := .fin 0 }

/-- Ten individuals with distinct ranks 1..10 and distinct parameters. -/
def cexPopSel : List Individual :=
  [selInd 0, selInd 1, selInd 2, selInd 3, selInd 4,
   selInd 5, selInd 6, selInd 7, selInd 8, selInd 9]

/-- A draw stream whose first four draws select indices 0, 1, 2, 3 of a
population of ten. -/
def cexGSel : RNG := fun n =>
  if n = 0 then 0 else if n = 1 then 1/10
  else if n = 2 then 2/10 else if n = 3 then 3/10 else 0

/-! ## Proof-side definitions -/

/-- The dominator set of index j: a proof-side view of dominationCount. -/
def Dset (objs : List Objs) (j : ℕ) : Finset ℕ :=
  ((List.range objs.length).filter (fun i => domIdx objs i j)).toFinset

/-- The fronts produced by the peeling loop, characterised level by level:
each front consists of exactly the unprocessed indices whose dominators are
all already processed, and the chain ends only when every index is
processed. -/
inductive FrontChain (objs : List Objs) : Finset ℕ → List (List ℕ) → Prop where
  | nil : ∀ Q, Q = Finset.range objs.length → FrontChain objs Q []
  | cons : ∀ Q F FS, F ≠ [] → F.Nodup →
      (∀ j, j ∈ F ↔ (j < objs.length ∧ j ∉ Q ∧ Dset objs j ⊆ Q)) →
      FrontChain objs (Q ∪ F.toFinset) FS → FrontChain objs Q (F :: FS)

/-! ## Basic lemmas -/

theorem validRNG_tail {g : RNG} (h : ValidRNG g) : ValidRNG (fun n => g (n + 1)) :=
  fun n => h (n + 1)

theorem truncQ_eq_floor {q : ℚ} (h : 0 ≤ q) : truncQ q = ⌊q⌋ := by
  rw [Rat.floor_def, truncQ]
  exact Int.tdiv_eq_ediv (Rat.num_nonneg.mpr h) (Int.ofNat_nonneg q.den)

theorem truncQ_nonpos {q : ℚ} (h : q ≤ 0) : truncQ q ≤ 0 := by
  have hnum : q.num ≤ 0 := Rat.num_nonpos.mpr h
  have : (0 : ℤ) ≤ (-q.num).tdiv q.den :=
    Int.tdiv_nonneg (by omega) (Int.ofNat_nonneg q.den)
  have hneg : (-q.num).tdiv q.den = -(q.num.tdiv q.den) := Int.neg_tdiv q.num q.den
  unfold truncQ
  omega

theorem truncQ_toNat_lt {q : ℚ} (n : ℕ) (h0 : 0 ≤ q) (h1 : q < (n : ℚ)) :
    (truncQ q).toNat < n := by
  rw [truncQ_eq_floor h0]
  have hfl : ⌊q⌋ < (n : ℤ) := Int.floor_lt.mpr (by exact_mod_cast h1)
  have hge : 0 ≤ ⌊q⌋ := Int.floor_nonneg.mpr h0
  omega

theorem truncQ_le_self {q : ℚ} (h : 0 ≤ q) : (truncQ q : ℚ) ≤ q := by
  rw [truncQ_eq_floor h]; exact Int.floor_le q

theorem le_truncQ {a : ℤ} {q : ℚ} (h0 : 0 ≤ q) (h : (a : ℚ) ≤ q) : a ≤ truncQ q := by
  rw [truncQ_eq_floor h0]; exact Int.le_floor.mpr h

theorem pickCat_mem {ts : List String} {r : ℚ} (h0 : 0 ≤ r) (h1 : r < 1)
    (hne : ts ≠ []) : pickCat ts r ∈ ts := by
  unfold pickCat
  have hlen : 0 < ts.length := List.length_pos.mpr hne
  have hq0 : 0 ≤ r * (ts.length : ℚ) :=
    mul_nonneg h0 (by exact_mod_cast Nat.zero_le _)
  have hlt : r * (ts.length : ℚ) < (ts.length : ℚ) := by
    have : (0 : ℚ) < (ts.length : ℚ) := by exact_mod_cast hlen
    nlinarith
  have hidx : (truncQ (r * (ts.length : ℚ))).toNat < ts.length :=
    truncQ_toNat_lt ts.length hq0 hlt
  rw [List.getD_eq_getElem ts "" hidx]
  exact List.getElem_mem hidx

/-! ## Claim C1: determinism -/

/-- Claim C1 (confirmed): two optimizer runs with the same random stream
(the mt19937 sequence fixed by the seed) and the same configuration produce
identical outcomes: the same initial population and the same population at
every generation, down to parameters, objective vectors, ranks and crowding
distances, together with the same Pareto front.  All randomness flows
through the single stream argument, mirroring the single rng member of
SpindleSimulation. -/
theorem claim1_determinism (phys : Phys) (cfg1 cfg2 : Config) (g1 g2 : RNG)
    (hcfg : cfg1 = cfg2) (hg : g1 = g2) :
    optimizeSpindleArrangement phys cfg1 g1 = optimizeSpindleArrangement phys cfg2 g2 := by
  subst hcfg
  subst hg
  rfl

/-- Witness for claim C1 at a concrete seed and configuration. -/
theorem claim1_determinism_witness :
    optimizeSpindleArrangement physW ⟨1, 1, 10, 1⟩ gW =
      optimizeSpindleArrangement physW ⟨1, 1, 10, 1⟩ gW :=
  claim1_determinism physW ⟨1, 1, 10, 1⟩ ⟨1, 1, 10, 1⟩ gW gW rfl rfl

/-! ## Claim C7: input validation -/

/-- Claim C7 (confirmed): an invalid configuration (non-positive duration,
load factor outside the half-to-two range, population below ten, or fewer
than one generation) is rejected with a descriptive failure before any
population work: the oracle-call count is zero and the outcome does not
depend on the random stream, so no random individual is ever generated. -/
theorem claim7_validation (phys : Phys) (cfg : Config) (g : RNG)
    (h : cfg.duration ≤ 0 ∨ cfg.loadFactor < 1/2 ∨ cfg.loadFactor > 2 ∨
      cfg.populationSize < 10 ∨ cfg.generations < 1) :
    (∃ msg, (optimizeSpindleArrangement phys cfg g).1 = .error msg) ∧
    (optimizeSpindleArrangement phys cfg g).2 = 0 ∧
    ∀ g2, optimizeSpindleArrangement phys cfg g = optimizeSpindleArrangement phys cfg g2 := by
  by_cases h1 : cfg.duration ≤ 0
  · unfold optimizeSpindleArrangement
    rw [if_pos h1]
    exact ⟨⟨"Duration must be positive", rfl⟩, rfl, fun g2 => by rw [if_pos h1]⟩
  · by_cases h2 : cfg.loadFactor < 1/2 ∨ cfg.loadFactor > 2
    · unfold optimizeSpindleArrangement
      rw [if_neg h1, if_pos h2]
      exact ⟨⟨"Load factor must be between 0.5 and 2.0", rfl⟩, rfl,
        fun g2 => by rw [if_neg h1, if_pos h2]⟩
    · by_cases h3 : cfg.populationSize < 10 ∨ cfg.generations < 1
      · unfold optimizeSpindleArrangement
        rw [if_neg h1, if_neg h2, if_pos h3]
        exact ⟨⟨"Population size must be at least 10 and generations at least 1", rfl⟩,
          rfl, fun g2 => by rw [if_neg h1, if_neg h2, if_pos h3]⟩
      · exact absurd h (by push_neg at h1 h2 h3 ⊢; exact ⟨h1, h2.1, h2.2, h3.1, h3.2⟩)

/-- Witness for claim C7: population size 5 is rejected. -/
theorem claim7_validation_witness :
    (∃ msg, (optimizeSpindleArrangement physW ⟨1, 1, 5, 1⟩ gW).1 = .error msg) ∧
    (optimizeSpindleArrangement physW ⟨1, 1, 5, 1⟩ gW).2 = 0 ∧
    ∀ g2, optimizeSpindleArrangement physW ⟨1, 1, 5, 1⟩ gW =
      optimizeSpindleArrangement physW ⟨1, 1, 5, 1⟩ g2 :=
  claim7_validation physW ⟨1, 1, 5, 1⟩ gW (by norm_num)

/-! ## Claim C4: sentinel objectives on evaluation failure -/

theorem loadSteps_eq_zero {duration : ℚ} (h : duration < 1/10) :
    loadSteps duration = 0 := by
  unfold loadSteps
  rcases le_or_lt duration 0 with hd | hd
  · have : truncQ (duration / (1/10)) ≤ 0 := truncQ_nonpos (by nlinarith)
    omega
  · have h0 : 0 ≤ duration / (1/10) := by positivity
    have h1 : duration / (1/10) < 1 := by nlinarith
    have := truncQ_toNat_lt 1 h0 (by exact_mod_cast h1)
    omega

theorem loadProfile_empty (phys : Phys) (p : SpindleParameters)
    (duration loadFactor : ℚ) (g : RNG) (h : duration < 1/10) :
    generateDynamicLoadProfile phys p duration loadFactor g = ([], g) := by
  unfold generateDynamicLoadProfile
  rw [loadSteps_eq_zero h]
  rfl

/-- Claim C4 (confirmed): whenever the objective evaluation fails — with the
modelled arithmetic exactly when the generated load profile is empty and the
code throws — evaluateObjectives assigns the sentinel worst-case vector
(vibration 1e10, negated bearing life -1e-10, temperature 1e10) instead of
propagating the failure; being a total function, it always leaves the
individual with a comparable 3-element objective vector and the enclosing
run continues. -/
theorem claim4_sentinel (phys : Phys) (p : SpindleParameters)
    (duration loadFactor : ℚ) (g : RNG)
    (h : (generateDynamicLoadProfile phys p duration loadFactor g).1 = []) :
    (evaluateObjectives phys p duration loadFactor g).1 = sentinelObjs := by
  unfold evaluateObjectives
  rcases hEq : generateDynamicLoadProfile phys p duration loadFactor g with ⟨prof, g2⟩
  rw [hEq] at h
  simp only at h
  simp [h]

/-- Witness for claim C4: a duration below one time step empties the load
profile and the sentinel vector is assigned. -/
theorem claim4_sentinel_witness :
    (generateDynamicLoadProfile physW paramsW (1/20) 1 gW).1 = [] ∧
    (evaluateObjectives physW paramsW (1/20) 1 gW).1 = sentinelObjs := by
  have h := loadProfile_empty physW paramsW (1/20) 1 gW (by norm_num)
  exact ⟨by rw [h], claim4_sentinel physW paramsW (1/20) 1 gW (by rw [h])⟩

/-! ## Claim C5: the variation operators preserve the Parameter-Space
invariant -/

theorem clamp_mem {lo hi x : ℚ} (h : lo ≤ hi) :
    lo ≤ max lo (min hi x) ∧ max lo (min hi x) ≤ hi :=
  ⟨le_max_left lo _, max_le h (min_le_left hi x)⟩

theorem blend_mem {p1 p2 lo hi r : ℚ} (h : lo ≤ hi) :
    lo ≤ blend p1 p2 lo hi r ∧ blend p1 p2 lo hi r ≤ hi := by
  unfold blend
  exact clamp_mem h

theorem truncQ_mem {a b : ℤ} {q : ℚ} (h0 : 0 ≤ a) (ha : (a : ℚ) ≤ q)
    (hb : q ≤ (b : ℚ)) : a ≤ truncQ q ∧ truncQ q ≤ b := by
  have hq : 0 ≤ q := le_trans (by exact_mod_cast h0) ha
  refine ⟨le_truncQ hq ha, ?_⟩
  have h1 : (truncQ q : ℚ) ≤ (b : ℚ) := le_trans (truncQ_le_self hq) hb
  exact_mod_cast h1

theorem polyMutate_mem (phys : Phys) {value lo hi r2 : ℚ} (h : lo ≤ hi) :
    lo ≤ polyMutate phys value lo hi r2 ∧ polyMutate phys value lo hi r2 ≤ hi := by
  unfold polyMutate
  exact clamp_mem h

theorem mutateContinuous_mem (phys : Phys) {value lo hi : ℚ} (g : RNG)
    (h : lo ≤ hi) (hv1 : lo ≤ value) (hv2 : value ≤ hi) :
    lo ≤ (mutateContinuous phys value lo hi g).1 ∧
      (mutateContinuous phys value lo hi g).1 ≤ hi := by
  unfold mutateContinuous RNG.next
  simp only
  split
  · exact ⟨hv1, hv2⟩
  · exact polyMutate_mem phys h

theorem mutateContinuous_validRNG (phys : Phys) (value lo hi : ℚ) {g : RNG}
    (hg : ValidRNG g) : ValidRNG (mutateContinuous phys value lo hi g).2 := by
  unfold mutateContinuous RNG.next
  simp only
  split
  · exact validRNG_tail hg
  · exact validRNG_tail (validRNG_tail hg)

theorem mutateCat_mem {ts : List String} {v : String} {g : RNG}
    (hg : ValidRNG g) (hv : v ∈ ts) :
    (mutateCat ts v g).1 ∈ ts ∧ ValidRNG (mutateCat ts v g).2 := by
  unfold mutateCat RNG.next
  simp only
  split
  · have h1 := (validRNG_tail hg) 0
    refine ⟨pickCat_mem h1.1 h1.2 (List.ne_nil_of_mem hv), ?_⟩
    exact validRNG_tail (validRNG_tail hg)
  · exact ⟨hv, validRNG_tail hg⟩

theorem truncQ_bounds_1000_30000 {q : ℚ} (h1 : 1000 ≤ q) (h2 : q ≤ 30000) :
    (1000 : ℤ) ≤ truncQ q ∧ truncQ q ≤ 30000 := by
  have hq : (0 : ℚ) ≤ q := by linarith
  constructor
  · exact le_truncQ hq (by exact_mod_cast h1)
  · have h3 : (truncQ q : ℚ) ≤ 30000 := le_trans (truncQ_le_self hq) h2
    exact_mod_cast h3

theorem crossover_valid (p1 p2 : SpindleParameters) (g : RNG)
    (h1 : ParamsValid p1) (h2 : ParamsValid p2) :
    ParamsValid (crossover p1 p2 g).1 := by
  obtain ⟨a1, a2, a3, a4, a5, a6, a7, a8, a9, a10, a11, a12, a13, a14, a15⟩ := h1
  obtain ⟨b1, b2, b3, b4, b5, b6, b7, b8, b9, b10, b11, b12, b13, b14, b15⟩ := h2
  unfold crossover ParamsValid
  refine ⟨(blend_mem (by norm_num)).1, (blend_mem (by norm_num)).2,
    (truncQ_bounds_1000_30000 (blend_mem (by norm_num)).1
      (blend_mem (by norm_num)).2).1,
    (truncQ_bounds_1000_30000 (blend_mem (by norm_num)).1
      (blend_mem (by norm_num)).2).2,
    (blend_mem (by norm_num)).1, (blend_mem (by norm_num)).2,
    (blend_mem (by norm_num)).1, (blend_mem (by norm_num)).2,
    (blend_mem (by norm_num)).1, (blend_mem (by norm_num)).2, ?_, ?_, ?_, ?_, ?_⟩ <;>
    simp only <;> split <;> assumption

theorem mutate_valid (phys : Phys) (p : SpindleParameters) (g : RNG)
    (hg : ValidRNG g) (hp : ParamsValid p) :
    ParamsValid (mutate phys p g).1 := by
  obtain ⟨c1, c2, c3, c4, c5, c6, c7, c8, c9, c10, c11, c12, c13, c14, c15⟩ := hp
  unfold mutate
  rcases hE1 : mutateContinuous phys p.powerRating (1/2) 50 g with ⟨pr, g1⟩
  have hm1 : 1/2 ≤ pr ∧ pr ≤ 50 := by
    have hx := mutateContinuous_mem phys g (by norm_num) c1 c2
    rw [hE1] at hx
    exact hx
  have hv1 : ValidRNG g1 := by
    have hx := mutateContinuous_validRNG phys p.powerRating (1/2) 50 hg
    rw [hE1] at hx
    exact hx
  rcases hE2 : mutateContinuous phys (p.maxSpeed : ℚ) 1000 30000 g1 with ⟨ms, g2⟩
  have hm2 : 1000 ≤ ms ∧ ms ≤ 30000 := by
    have hx := mutateContinuous_mem phys g1 (by norm_num)
      (show (1000 : ℚ) ≤ (p.maxSpeed : ℚ) by exact_mod_cast c3)
      (show (p.maxSpeed : ℚ) ≤ 30000 by exact_mod_cast c4)
    rw [hE2] at hx
    exact hx
  have hv2 : ValidRNG g2 := by
    have hx := mutateContinuous_validRNG phys (p.maxSpeed : ℚ) 1000 30000 hv1
    rw [hE2] at hx
    exact hx
  rcases hE3 : mutateContinuous phys p.wheelDiameter 50 1000 g2 with ⟨wd, g3⟩
  have hm3 : 50 ≤ wd ∧ wd ≤ 1000 := by
    have hx := mutateContinuous_mem phys g2 (by norm_num) c5 c6
    rw [hE3] at hx
    exact hx
  have hv3 : ValidRNG g3 := by
    have hx := mutateContinuous_validRNG phys p.wheelDiameter 50 1000 hv2
    rw [hE3] at hx
    exact hx
  rcases hE4 : mutateContinuous phys p.bearingPreload 100 2000 g3 with ⟨bp, g4⟩
  have hm4 : 100 ≤ bp ∧ bp ≤ 2000 := by
    have hx := mutateContinuous_mem phys g3 (by norm_num) c7 c8
    rw [hE4] at hx
    exact hx
  have hv4 : ValidRNG g4 := by
    have hx := mutateContinuous_validRNG phys p.bearingPreload 100 2000 hv3
    rw [hE4] at hx
    exact hx
  rcases hE5 : mutateContinuous phys p.alignmentTolerance (1/10000) (1/100) g4 with ⟨al, g5⟩
  have hm5 : 1/10000 ≤ al ∧ al ≤ 1/100 := by
    have hx := mutateContinuous_mem phys g4 (by norm_num) c9 c10
    rw [hE5] at hx
    exact hx
  have hv5 : ValidRNG g5 := by
    have hx := mutateContinuous_validRNG phys p.alignmentTolerance (1/10000) (1/100) hv4
    rw [hE5] at hx
    exact hx
  rcases hF1 : mutateCat spindleTypes p.spindleType g5 with ⟨st, g6⟩
  have hc1 : st ∈ spindleTypes ∧ ValidRNG g6 := by
    have hx := mutateCat_mem hv5 c11
    rw [hF1] at hx
    exact hx
  rcases hF2 : mutateCat bearingTypes p.bearingType g6 with ⟨bt, g7⟩
  have hc2 : bt ∈ bearingTypes ∧ ValidRNG g7 := by
    have hx := mutateCat_mem hc1.2 c12
    rw [hF2] at hx
    exact hx
  rcases hF3 : mutateCat coolingTypes p.coolingType g7 with ⟨ct, g8⟩
  have hc3 : ct ∈ coolingTypes ∧ ValidRNG g8 := by
    have hx := mutateCat_mem hc2.2 c13
    rw [hF3] at hx
    exact hx
  rcases hF4 : mutateCat lubricationTypes p.lubricationType g8 with ⟨lt, g9⟩
  have hc4 : lt ∈ lubricationTypes ∧ ValidRNG g9 := by
    have hx := mutateCat_mem hc3.2 c14
    rw [hF4] at hx
    exact hx
  rcases hF5 : mutateCat toolInterfaces p.toolInterface g9 with ⟨ti, g10⟩
  have hc5 : ti ∈ toolInterfaces ∧ ValidRNG g10 := by
    have hx := mutateCat_mem hc4.2 c15
    rw [hF5] at hx
    exact hx
  simp only [hE1, hE2, hE3, hE4, hE5, hF1, hF2, hF3, hF4, hF5]
  exact ⟨hm1.1, hm1.2, (truncQ_bounds_1000_30000 hm2.1 hm2.2).1,
    (truncQ_bounds_1000_30000 hm2.1 hm2.2).2, hm3.1, hm3.2, hm4.1, hm4.2,
    hm5.1, hm5.2, hc1.1, hc2.1, hc3.1, hc4.1, hc5.1⟩

/-- Claim C5 (confirmed): for parents satisfying the Parameter-Space
invariant and any valid draw stream, the offspring of crossover and the
output of mutate satisfy it as well: the five continuous fields are clamped
into their bounds (maxSpeed additionally truncated to an integer inside
them) and every categorical field remains a member of its fixed
enumeration. -/
theorem claim5_operators_preserve_invariant (phys : Phys) (p1 p2 p : SpindleParameters)
    (g gm : RNG) (hgm : ValidRNG gm)
    (h1 : ParamsValid p1) (h2 : ParamsValid p2) (hp : ParamsValid p) :
    ParamsValid (crossover p1 p2 g).1 ∧ ParamsValid (mutate phys p gm).1 :=
  ⟨crossover_valid p1 p2 g h1 h2, mutate_valid phys p gm hgm hp⟩

/-- Witness for claim C5 at concrete parents, parameters and stream. -/
theorem claim5_operators_witness :
    ParamsValid (crossover paramsW paramsW gW).1 ∧
      ParamsValid (mutate physW paramsW gW).1 :=
  claim5_operators_preserve_invariant physW paramsW paramsW paramsW gW gW
    (fun _ => by norm_num [gW])
    (by unfold ParamsValid paramsW; norm_num [spindleTypes, bearingTypes,
      coolingTypes, lubricationTypes, toolInterfaces])
    (by unfold ParamsValid paramsW; norm_num [spindleTypes, bearingTypes,
      coolingTypes, lubricationTypes, toolInterfaces])
    (by unfold ParamsValid paramsW; norm_num [spindleTypes, bearingTypes,
      coolingTypes, lubricationTypes, toolInterfaces])

/-! ## Claim C8: parent selection -/

theorem truncQ_zero : truncQ 0 = 0 := by
  rw [truncQ_eq_floor le_rfl]
  exact Int.floor_zero

theorem truncQ_one : truncQ 1 = 1 := by
  rw [truncQ_eq_floor (by norm_num)]
  exact Int.floor_one

theorem truncQ_two : truncQ 2 = 2 := by
  rw [truncQ_eq_floor (by norm_num), Int.floor_eq_iff]
  norm_num

theorem truncQ_three : truncQ 3 = 3 := by
  rw [truncQ_eq_floor (by norm_num), Int.floor_eq_iff]
  norm_num

theorem gtb_asymm {a b : CrowdVal} (h : CrowdVal.gtb a b = true) :
    CrowdVal.gtb b a = false := by
  cases a <;> cases b <;> simp_all [CrowdVal.gtb]
  linarith

/-- Counterexample to claim C8: on this population and draw stream the code
selects the individuals at the first two drawn indices (0 and 1), orders
them, and passes both to crossover, consuming two draws; the two
independent binary tournaments the claim describes would instead return the
winners of the pairs (0, 1) and (2, 3), namely the individuals at indices 0
and 2.  The resulting ordered parent pairs differ. -/
theorem claim8_counterexample :
    selectParents 10 cexPopSel cexGSel =
      .ok ((selInd 0, selInd 1), fun n => cexGSel (n + 1 + 1)) ∧
    (selectParentsTwoTournaments 10 cexPopSel cexGSel).1 = (selInd 0, selInd 2) ∧
    (selInd 0, selInd 1) ≠ (selInd 0, selInd 2) := by
  refine ⟨?_, ?_, ?_⟩
  · norm_num [selectParents, RNG.next, cexGSel, truncQ_zero, truncQ_one,
      cexPopSel, List.getD, selInd, CrowdVal.gtb]
  · norm_num [selectParentsTwoTournaments, tournamentPick, RNG.next, cexGSel,
      truncQ_zero, truncQ_one, truncQ_two, truncQ_three,
      (by decide : Int.toNat 2 = 2), (by decide : Int.toNat 3 = 3),
      cexPopSel, List.getD, selInd, CrowdVal.gtb]
  · norm_num [selInd]

/-- Claim C8 amended (the code draws one pair, not two tournaments): for
every valid stream and population of the configured size, the selection
step consumes exactly two uniform index draws, the two drawn individuals
are exactly the two parents passed to crossover, and they are ordered so
that the primary parent has the lower rank, or on a rank tie a crowding
distance at least that of the secondary parent. -/
theorem claim8_amended_pair_selection (populationSize : ℤ) (pop : List Individual)
    (g : RNG) (hg : ValidRNG g) (hpop : pop.length = populationSize.toNat)
    (hpos : 0 < populationSize) :
    ∃ a b g2, selectParents populationSize pop g = .ok ((a, b), g2) ∧
      ((a = pop.getD (truncQ (g 0 * (populationSize : ℚ))).toNat default ∧
        b = pop.getD (truncQ (g 1 * (populationSize : ℚ))).toNat default) ∨
       (b = pop.getD (truncQ (g 0 * (populationSize : ℚ))).toNat default ∧
        a = pop.getD (truncQ (g 1 * (populationSize : ℚ))).toNat default)) ∧
      (a.rank < b.rank ∨ (a.rank = b.rank ∧
        CrowdVal.gtb b.crowdingDistance a.crowdingDistance = false)) := by
  have hcast : ((populationSize.toNat : ℕ) : ℚ) = (populationSize : ℚ) := by
    exact_mod_cast congrArg (fun z : ℤ => (z : ℚ)) (Int.toNat_of_nonneg hpos.le)
  have hidx : ∀ n, (truncQ (g n * (populationSize : ℚ))).toNat < pop.length := by
    intro n
    rw [hpop]
    refine truncQ_toNat_lt populationSize.toNat
      (mul_nonneg (hg n).1 (by exact_mod_cast hpos.le)) ?_
    rw [hcast]
    have hp : (0 : ℚ) < (populationSize : ℚ) := by exact_mod_cast hpos
    nlinarith [(hg n).1, (hg n).2]
  unfold selectParents RNG.next
  simp only
  rw [if_neg (by push_neg; exact ⟨Nat.lt_of_lt_of_le (hidx 0) le_rfl,
    Nat.lt_of_lt_of_le (hidx 1) le_rfl⟩)]
  split
  · rename_i hcond
    refine ⟨_, _, _, rfl, Or.inl ⟨rfl, rfl⟩, ?_⟩
    rcases hcond with hlt | ⟨heq, hgt⟩
    · exact Or.inl hlt
    · exact Or.inr ⟨heq, gtb_asymm hgt⟩
  · rename_i hcond
    push_neg at hcond
    refine ⟨_, _, _, rfl, Or.inr ⟨rfl, rfl⟩, ?_⟩
    rcases eq_or_lt_of_le hcond.1 with heq | hlt
    · exact Or.inr ⟨heq, by simpa using hcond.2 heq.symm⟩
    · exact Or.inl hlt

/-- Witness for the amended claim C8 at a concrete population and stream. -/
theorem claim8_amended_witness :
    ∃ a b g2, selectParents 10 cexPopSel gW = .ok ((a, b), g2) ∧
      ((a = cexPopSel.getD (truncQ (gW 0 * (10 : ℚ))).toNat default ∧
        b = cexPopSel.getD (truncQ (gW 1 * (10 : ℚ))).toNat default) ∨
       (b = cexPopSel.getD (truncQ (gW 0 * (10 : ℚ))).toNat default ∧
        a = cexPopSel.getD (truncQ (gW 1 * (10 : ℚ))).toNat default)) ∧
      (a.rank < b.rank ∨ (a.rank = b.rank ∧
        CrowdVal.gtb b.crowdingDistance a.crowdingDistance = false)) :=
  claim8_amended_pair_selection 10 cexPopSel gW (fun _ => by norm_num [gW])
    (by decide) (by norm_num)

/-! ## Claim C9: crowding distance of boundary members -/

theorem foldl_pres {α : Type} {β : Type} (P : β → Prop) (f : β → α → β)
    (hstep : ∀ c a, P c → P (f c a)) :
    ∀ (l : List α) (c : β), P c → P (l.foldl f c)
  | [], _, h => h
  | a :: t, c, h => foldl_pres P f hstep t (f c a) (hstep c a h)

theorem setCd_self (c : ℕ → CrowdVal) (j : ℕ) (v : CrowdVal) : setCd c j v j = v := by
  unfold setCd
  rw [if_pos rfl]

theorem setCd_inf_pres (c : ℕ → CrowdVal) (j m : ℕ) (h : c m = .inf) :
    setCd c j .inf m = .inf := by
  unfold setCd
  split <;> [rfl; exact h]

theorem crowdAccum_pres (key : ℕ → ℚ) (sorted : List ℕ) (objRange : ℚ)
    (c : ℕ → CrowdVal) (i m : ℕ) (h : c m = .inf) :
    crowdAccum key sorted objRange c i m = .inf := by
  unfold crowdAccum setCd
  split
  · rename_i hEq
    rw [hEq] at h
    rw [h]
    rfl
  · exact h

theorem crowdObj_pres (objs : List Objs) (F : List ℕ) (k : ℕ) (cds : ℕ → CrowdVal)
    (m : ℕ) (h : cds m = .inf) : crowdObj objs F k cds m = .inf := by
  unfold crowdObj
  simp only
  have hc2 : setCd (setCd cds ((sortIdx objs k F).headD 0) .inf)
      ((sortIdx objs k F).getLastD 0) .inf m = .inf :=
    setCd_inf_pres _ _ _ (setCd_inf_pres _ _ _ h)
  split
  · exact hc2
  · exact foldl_pres (fun c => c m = CrowdVal.inf) _
      (fun c i hc => crowdAccum_pres _ _ _ c i m hc) _ _ hc2

theorem crowdObj_extreme (objs : List Objs) (F : List ℕ) (k : ℕ)
    (cds : ℕ → CrowdVal) (m : ℕ)
    (h : m = (sortIdx objs k F).headD 0 ∨ m = (sortIdx objs k F).getLastD 0) :
    crowdObj objs F k cds m = .inf := by
  unfold crowdObj
  simp only
  have hc2 : setCd (setCd cds ((sortIdx objs k F).headD 0) .inf)
      ((sortIdx objs k F).getLastD 0) .inf m = .inf := by
    show (if m = (sortIdx objs k F).getLastD 0 then CrowdVal.inf
      else if m = (sortIdx objs k F).headD 0 then CrowdVal.inf else cds m) = CrowdVal.inf
    rcases h with h | h
    · by_cases hl : m = (sortIdx objs k F).getLastD 0
      · rw [if_pos hl]
      · rw [if_neg hl, if_pos h]
    · rw [if_pos h]
  split
  · exact hc2
  · exact foldl_pres (fun c => c m = CrowdVal.inf) _
      (fun c i hc => crowdAccum_pres _ _ _ c i m hc) _ _ hc2

theorem foldl_setCd_inf : ∀ (l : List ℕ) (c : ℕ → CrowdVal) (m : ℕ), m ∈ l →
    (l.foldl (fun c2 j => setCd c2 j .inf) c) m = .inf
  | a :: t, c, m, hm => by
    simp only [List.foldl]
    rcases List.mem_cons.mp hm with rfl | hmt
    · exact foldl_pres (fun c2 => c2 m = CrowdVal.inf) (fun c2 j => setCd c2 j .inf)
        (fun c2 j hc => setCd_inf_pres c2 j m hc) t (setCd c m .inf) (setCd_self c m .inf)
    · exact foldl_setCd_inf t (setCd c a .inf) m hmt

theorem getLastD_mem {α : Type} : ∀ (l : List α) (d : α), l ≠ [] → l.getLastD d ∈ l
  | [], _, h => absurd rfl h
  | [a], d, _ => by
    rw [List.getLastD_cons]
    exact List.mem_singleton.mpr rfl
  | a :: b :: t, d, _ => by
    rw [List.getLastD_cons]
    exact List.mem_cons_of_mem a (getLastD_mem (b :: t) a (by simp))

theorem pairwise_rel_getLastD {α : Type} (r : α → α → Prop) :
    ∀ (l : List α) (d : α), l.Pairwise r → ∀ x ∈ l,
      x = l.getLastD d ∨ r x (l.getLastD d)
  | [], _, _, x, hx => absurd hx (List.not_mem_nil x)
  | [a], d, _, x, hx => by
    rw [List.mem_singleton] at hx
    subst hx
    left
    rw [List.getLastD_cons]
    rfl
  | a :: b :: t, d, hp, x, hx => by
    rw [List.getLastD_cons]
    rcases List.mem_cons.mp hx with hxa | hxt
    · right
      rw [hxa]
      exact (List.pairwise_cons.mp hp).1 _ (getLastD_mem (b :: t) a (by simp))
    · exact pairwise_rel_getLastD r (b :: t) a (List.pairwise_cons.mp hp).2 x hxt

theorem sortIdx_headD_eq (objs : List Objs) (k : ℕ) (F : List ℕ) (m : ℕ)
    (hm : m ∈ F)
    (hmin : ∀ j ∈ F, j ≠ m → (objAt objs m).nth k < (objAt objs j).nth k) :
    (sortIdx objs k F).headD 0 = m := by
  unfold sortIdx
  haveI : IsTotal ℕ (fun a b => (objAt objs a).nth k ≤ (objAt objs b).nth k) :=
    ⟨fun a b => le_total _ _⟩
  haveI : IsTrans ℕ (fun a b => (objAt objs a).nth k ≤ (objAt objs b).nth k) :=
    ⟨fun a b c hab hbc => le_trans hab hbc⟩
  have hperm := List.perm_insertionSort
    (fun a b => (objAt objs a).nth k ≤ (objAt objs b).nth k) F
  have hsorted := List.sorted_insertionSort
    (fun a b => (objAt objs a).nth k ≤ (objAt objs b).nth k) F
  cases hS : List.insertionSort
      (fun a b => (objAt objs a).nth k ≤ (objAt objs b).nth k) F with
  | nil =>
    exact absurd (hperm.mem_iff.mpr hm) (by rw [hS]; exact List.not_mem_nil m)
  | cons h t =>
    show h = m
    by_contra hne
    have hhF : h ∈ F := hperm.mem_iff.mp (by rw [hS]; exact List.mem_cons_self h t)
    have hkey : (objAt objs m).nth k < (objAt objs h).nth k := hmin h hhF hne
    have hmL : m ∈ h :: t := by rw [← hS]; exact hperm.mem_iff.mpr hm
    rcases List.mem_cons.mp hmL with rfl | hmt
    · exact hne rfl
    · rw [hS] at hsorted
      have := (List.pairwise_cons.mp hsorted).1 m hmt
      exact absurd this (not_le.mpr hkey)

theorem sortIdx_getLastD_eq (objs : List Objs) (k : ℕ) (F : List ℕ) (m : ℕ)
    (hm : m ∈ F)
    (hmax : ∀ j ∈ F, j ≠ m → (objAt objs j).nth k < (objAt objs m).nth k) :
    (sortIdx objs k F).getLastD 0 = m := by
  unfold sortIdx
  haveI : IsTotal ℕ (fun a b => (objAt objs a).nth k ≤ (objAt objs b).nth k) :=
    ⟨fun a b => le_total _ _⟩
  haveI : IsTrans ℕ (fun a b => (objAt objs a).nth k ≤ (objAt objs b).nth k) :=
    ⟨fun a b c hab hbc => le_trans hab hbc⟩
  have hperm := List.perm_insertionSort
    (fun a b => (objAt objs a).nth k ≤ (objAt objs b).nth k) F
  have hsorted := List.sorted_insertionSort
    (fun a b => (objAt objs a).nth k ≤ (objAt objs b).nth k) F
  have hmL : m ∈ List.insertionSort
      (fun a b => (objAt objs a).nth k ≤ (objAt objs b).nth k) F :=
    hperm.mem_iff.mpr hm
  rcases pairwise_rel_getLastD _ _ 0 hsorted m hmL with heq | hrel
  · exact heq.symm
  · by_contra hne
    have hlastmem : (List.insertionSort
        (fun a b => (objAt objs a).nth k ≤ (objAt objs b).nth k) F).getLastD 0 ∈ F :=
      hperm.mem_iff.mp (getLastD_mem _ 0 (List.ne_nil_of_mem hmL))
    have hkey := hmax _ hlastmem hne
    exact absurd hrel (not_le.mpr hkey)

/-- Claim C9 amended: in a front of size at most two every member receives
infinite crowding distance; in a larger front, for each objective, a member
that uniquely attains the minimum or uniquely attains the maximum of that
objective receives infinite crowding distance.  (When an extreme value is
tied, only the tied member that the sort places at the boundary is forced
to infinity — see the counterexample.) -/
theorem claim9_amended_boundary (objs : List Objs) (F : List ℕ) (cds : ℕ → CrowdVal) :
    (F.length ≤ 2 → ∀ m ∈ F, crowdFront objs F cds m = .inf) ∧
    (∀ k, k < 3 → ∀ m ∈ F,
      ((∀ j ∈ F, j ≠ m → (objAt objs m).nth k < (objAt objs j).nth k) ∨
       (∀ j ∈ F, j ≠ m → (objAt objs j).nth k < (objAt objs m).nth k)) →
      crowdFront objs F cds m = .inf) := by
  constructor
  · intro hlen m hm
    unfold crowdFront
    rw [if_pos hlen]
    exact foldl_setCd_inf F cds m hm
  · intro k hk m hm hext
    have hex : m = (sortIdx objs k F).headD 0 ∨ m = (sortIdx objs k F).getLastD 0 := by
      rcases hext with hmin | hmax
      · exact Or.inl (sortIdx_headD_eq objs k F m hm hmin).symm
      · exact Or.inr (sortIdx_getLastD_eq objs k F m hm hmax).symm
    unfold crowdFront
    split
    · exact foldl_setCd_inf F cds m hm
    · interval_cases k
      · exact crowdObj_pres _ _ _ _ _ (crowdObj_pres _ _ _ _ _
          (crowdObj_extreme objs F 0 cds m hex))
      · exact crowdObj_pres _ _ _ _ _
          (crowdObj_extreme objs F 1 (crowdObj objs F 0 cds) m hex)
      · exact crowdObj_extreme objs F 2 (crowdObj objs F 1 (crowdObj objs F 0 cds)) m hex

/-- Witness for the amended claim C9: a front of size two, and the unique
maximum holder of objective 0 in a front of size three. -/
theorem claim9_amended_witness :
    crowdFront (cexPop9.map (·.objs)) [0, 1] (fun _ => .fin 0) 0 = .inf ∧
    crowdFront (cexPop9.map (·.objs)) [0, 1, 2] (fun _ => .fin 0) 2 = .inf := by
  have h1 := claim9_amended_boundary (cexPop9.map (·.objs)) [0, 1] (fun _ => .fin 0)
  have h2 := claim9_amended_boundary (cexPop9.map (·.objs)) [0, 1, 2] (fun _ => .fin 0)
  refine ⟨h1.1 (by decide) 0 (by decide), h2.2 0 (by decide) 2 (by decide) (Or.inr ?_)⟩
  intro j hj hne
  fin_cases hj <;> norm_num [objAt, Objs.nth, cexPop9] at hne ⊢

/-- Counterexample to claim C9 as stated: in the population cexPop9 the
non-dominated sort produces the single front of indices 0, 1, 2; members 0
and 1 tie for the minimum of objective 0 (values 0, 0, 1), yet member 1
receives the finite crowding distance 3, not infinity — only the tied
member that the sort places first (member 0) is forced to infinity. -/
theorem claim9_counterexample :
    frontsOf (cexPop9.map (·.objs)) = [[0, 1, 2]] ∧
    cexPop9.map (fun i => i.objs.o0) = [0, 0, 1] ∧
    ((nonDominatedSorting cexPop9).getD 1 default).crowdingDistance = .fin 3 := by
  have hf : frontsOf (cexPop9.map (·.objs)) = [[0, 1, 2]] := by decide
  refine ⟨hf, by norm_num [cexPop9], ?_⟩
  simp only [nonDominatedSorting]
  rw [hf]
  norm_num [crowdAll, crowdFront, List.foldl_cons, List.foldl_nil,
    crowdObj, crowdAccum, sortIdx, setCd, updateInds, rankOf, cexPop9,
    List.insertionSort, List.orderedInsert, List.getD, CrowdVal.addQ,
    objAt, Objs.nth,
    (by decide : List.range' 1 1 = [1])]

/-! ## Claim C2: crowding distances are accumulated onto stale values -/

/-- Claim C2 concerns a bug: the per-generation crowding recomputation of
optimizeSpindleArrangement (and of nonDominatedSorting) does not reset
crowding distances to zero; interior members of a front of size at least
three accumulate the new contributions on top of whatever crowdingDistance
they carried in from the previous generation.  Concretely: the four
objective vectors of cexObjs2 form one front; member 1 is interior for all
three objectives, each contributing 1.  Starting from the stale value 100
(as a surviving parent would carry), the computed distance is 103; starting
from zero — as the specification demands — it would be 3. -/
theorem claim2_crowding_carryover :
    frontsOf cexObjs2 = [[0, 1, 2, 3]] ∧
    crowdAll cexObjs2 [[0, 1, 2, 3]]
      (fun j => if j = 1 then .fin 100 else .fin 0) 1 = .fin 103 ∧
    crowdAll cexObjs2 [[0, 1, 2, 3]] (fun _ => .fin 0) 1 = .fin 3 := by
  refine ⟨by decide, ?_, ?_⟩ <;>
    norm_num [crowdAll, crowdFront, List.foldl_cons, List.foldl_nil,
      crowdObj, crowdAccum, sortIdx, setCd, cexObjs2,
      List.insertionSort, List.orderedInsert, List.getD, CrowdVal.addQ,
      objAt, Objs.nth,
      (by decide : List.range' 1 2 = [1, 2])]

/-! ## Claim C3: the front-peeling sort partitions the population -/

theorem dominates_irrefl (a : Objs) : dominates a a = false := by
  simp [dominates]

theorem dominates_true_iff {a b : Objs} : dominates a b = true ↔
    ((a.o0 ≤ b.o0 ∧ a.o1 ≤ b.o1 ∧ a.o2 ≤ b.o2) ∧
      (a.o0 < b.o0 ∨ a.o1 < b.o1 ∨ a.o2 < b.o2)) := by
  simp [dominates, and_assoc, or_assoc]

theorem dominates_asymm {a b : Objs} (h : dominates a b = true) :
    dominates b a = false := by
  rw [dominates_true_iff] at h
  obtain ⟨⟨h1, h2, h3⟩, h4⟩ := h
  rw [← Bool.not_eq_true, dominates_true_iff]
  rintro ⟨⟨g1, g2, g3⟩, g4⟩
  rcases h4 with h4 | h4 | h4 <;> linarith

theorem dominates_trans {a b c : Objs} (h1 : dominates a b = true)
    (h2 : dominates b c = true) : dominates a c = true := by
  rw [dominates_true_iff] at h1 h2 ⊢
  obtain ⟨⟨a1, a2, a3⟩, a4⟩ := h1
  obtain ⟨⟨b1, b2, b3⟩, b4⟩ := h2
  refine ⟨⟨le_trans a1 b1, le_trans a2 b2, le_trans a3 b3⟩, ?_⟩
  rcases a4 with h | h | h
  · exact Or.inl (lt_of_lt_of_le h b1)
  · exact Or.inr (Or.inl (lt_of_lt_of_le h b2))
  · exact Or.inr (Or.inr (lt_of_lt_of_le h b3))

theorem domIdx_irrefl (objs : List Objs) (i : ℕ) : domIdx objs i i = false := by
  simp [domIdx]

theorem domIdx_true_iff {objs : List Objs} {i j : ℕ} :
    domIdx objs i j = true ↔ i ≠ j ∧ dominates (objAt objs i) (objAt objs j) = true := by
  simp [domIdx]

theorem domIdx_asymm {objs : List Objs} {i j : ℕ} (h : domIdx objs i j = true) :
    domIdx objs j i = false := by
  rw [domIdx_true_iff] at h
  rw [← Bool.not_eq_true, domIdx_true_iff]
  rintro ⟨-, hd⟩
  rw [dominates_asymm h.2] at hd
  exact Bool.false_ne_true hd

theorem domIdx_trans {objs : List Objs} {i j k : ℕ} (h1 : domIdx objs i j = true)
    (h2 : domIdx objs j k = true) : domIdx objs i k = true := by
  rw [domIdx_true_iff] at h1 h2 ⊢
  refine ⟨?_, dominates_trans h1.2 h2.2⟩
  rintro rfl
  rw [dominates_asymm h1.2] at h2
  exact Bool.false_ne_true h2.2

theorem mem_Dset {objs : List Objs} {i j : ℕ} :
    i ∈ Dset objs j ↔ i < objs.length ∧ domIdx objs i j = true := by
  simp [Dset, List.mem_filter]

theorem count0_eq_card (objs : List Objs) (j : ℕ) :
    count0 objs j = (Dset objs j).card := by
  unfold count0 Dset
  rw [List.toFinset_card_of_nodup (List.Nodup.filter _ (List.nodup_range _))]

theorem count0_lt_of_dom {objs : List Objs} {i j : ℕ} (hi : i < objs.length)
    (hd : domIdx objs i j = true) : count0 objs i < count0 objs j := by
  rw [count0_eq_card, count0_eq_card]
  refine Finset.card_lt_card ⟨?_, ?_⟩
  · intro x hx
    rw [mem_Dset] at hx ⊢
    exact ⟨hx.1, domIdx_trans hx.2 hd⟩
  · intro hsub
    have hij : i ∈ Dset objs j := mem_Dset.mpr ⟨hi, hd⟩
    have := hsub hij
    rw [mem_Dset] at this
    rw [domIdx_irrefl] at this
    exact Bool.false_ne_true this.2

theorem applyDecs_fst : ∀ (ds : List ℕ) (c : ℕ → ℤ) (j : ℕ),
    (applyDecs ds c).1 j = c j - (ds.count j : ℤ)
  | [], c, j => by simp [applyDecs]
  | d :: ds, c, j => by
    simp only [applyDecs]
    rw [applyDecs_fst ds _ j]
    by_cases hjd : j = d
    · subst hjd
      rw [List.count_cons_self]
      simp only [if_pos rfl]
      push_cast
      ring
    · rw [List.count_cons_of_ne hjd]
      simp only [if_neg hjd]

theorem applyDecs_mem : ∀ (ds : List ℕ) (c : ℕ → ℤ) (j : ℕ),
    j ∈ (applyDecs ds c).2 ↔ (1 ≤ c j ∧ c j ≤ (ds.count j : ℤ))
  | [], c, j => by simp [applyDecs]; intro h; omega
  | d :: ds, c, j => by
    simp only [applyDecs]
    by_cases hjd : j = d
    · subst hjd
      rw [List.count_cons_self]
      by_cases hz : c j - 1 = 0
      · rw [if_pos hz]
        simp only [List.mem_cons, true_or, iff_true, true_iff]
        omega
      · rw [if_neg hz]
        rw [applyDecs_mem ds _ j]
        simp only [if_pos rfl]
        push_cast
        omega
    · have hmem : j ∈ (applyDecs ds (fun k => if k = d then c d - 1 else c k)).2 ↔
          (1 ≤ c j ∧ c j ≤ (ds.count j : ℤ)) := by
        rw [applyDecs_mem ds _ j]
        simp only [if_neg hjd]
      rw [List.count_cons_of_ne hjd]
      by_cases hz : c d - 1 = 0
      · rw [if_pos hz, List.mem_cons]
        simp only [hjd, false_or]
        exact hmem
      · rw [if_neg hz]
        exact hmem

theorem applyDecs_nodup : ∀ (ds : List ℕ) (c : ℕ → ℤ), (applyDecs ds c).2.Nodup
  | [], c => by simp [applyDecs]
  | d :: ds, c => by
    simp only [applyDecs]
    have hnd := applyDecs_nodup ds (fun k => if k = d then c d - 1 else c k)
    by_cases hz : c d - 1 = 0
    · rw [if_pos hz]
      refine List.nodup_cons.mpr ⟨?_, hnd⟩
      rw [applyDecs_mem]
      simp [hz]
    · rw [if_neg hz]
      exact hnd

theorem count_range (j n : ℕ) :
    (List.range n).count j = if j < n then 1 else 0 := by
  by_cases hj : j < n
  · rw [if_pos hj]
    exact Nat.le_antisymm (List.nodup_iff_count_le_one.mp (List.nodup_range n) j)
      (List.count_pos_iff.mpr (List.mem_range.mpr hj))
  · rw [if_neg hj]
    exact List.count_eq_zero.mpr (fun hm => hj (List.mem_range.mp hm))

theorem count_dominatedBy (objs : List Objs) (i j : ℕ) :
    (dominatedBy objs i).count j =
      if domIdx objs i j = true ∧ j < objs.length then 1 else 0 := by
  unfold dominatedBy
  by_cases hd : domIdx objs i j = true
  · rw [List.count_filter hd, count_range]
    by_cases hj : j < objs.length
    · rw [if_pos hj, if_pos ⟨hd, hj⟩]
    · rw [if_neg hj, if_neg (fun hc => hj hc.2)]
  · rw [if_neg (fun hc => hd hc.1)]
    rw [List.count_eq_zero]
    intro hm
    exact hd (List.mem_filter.mp hm).2

theorem sum_ite_eq_length_filter (p : ℕ → Bool) : ∀ (F : List ℕ),
    (F.map (fun i => if p i = true then 1 else 0)).sum = (F.filter p).length
  | [] => rfl
  | a :: F => by
    by_cases ha : p a = true
    · simp only [List.map_cons, List.sum_cons, if_pos ha, List.filter_cons_of_pos ha,
        List.length_cons, sum_ite_eq_length_filter p F]
      omega
    · simp only [List.map_cons, List.sum_cons, if_neg ha,
        List.filter_cons_of_neg (by simpa using ha), sum_ite_eq_length_filter p F]
      omega

theorem count_decList (objs : List Objs) (F : List ℕ) (j : ℕ) (hj : j < objs.length) :
    (F.flatMap (dominatedBy objs)).count j = (F.filter (fun i => domIdx objs i j)).length := by
  rw [List.count_flatMap]
  rw [← sum_ite_eq_length_filter (fun i => domIdx objs i j) F]
  congr 1
  refine List.map_congr_left (fun i _ => ?_)
  rw [Function.comp_apply, count_dominatedBy]
  by_cases hd : domIdx objs i j = true
  · rw [if_pos ⟨hd, hj⟩, if_pos hd]
  · rw [if_neg (fun hc => hd hc.1), if_neg hd]

theorem count_decList_zero (objs : List Objs) (F : List ℕ) (j : ℕ)
    (hj : ¬ j < objs.length) : (F.flatMap (dominatedBy objs)).count j = 0 := by
  rw [List.count_eq_zero]
  intro hm
  rcases List.mem_flatMap.mp hm with ⟨i, -, hmem⟩
  exact hj (List.mem_range.mp (List.mem_filter.mp hmem).1)

theorem filter_length_eq_card_inter (objs : List Objs) (F : List ℕ) (j : ℕ)
    (hFnd : F.Nodup) (hFsub : ∀ i ∈ F, i < objs.length) :
    (F.filter (fun i => domIdx objs i j)).length = (Dset objs j ∩ F.toFinset).card := by
  rw [← List.toFinset_card_of_nodup (hFnd.filter _), List.toFinset_filter]
  congr 1
  ext x
  simp only [Finset.mem_filter, List.mem_toFinset, Finset.mem_inter, mem_Dset]
  constructor
  · rintro ⟨hx, hd⟩
    exact ⟨⟨hFsub x hx, hd⟩, hx⟩
  · rintro ⟨⟨-, hd⟩, hx⟩
    exact ⟨hx, hd⟩

theorem inter_subset_sdiff (objs : List Objs) (Q : Finset ℕ) (F : List ℕ) (j : ℕ)
    (hF : ∀ i, i ∈ F ↔ (i < objs.length ∧ i ∉ Q ∧ Dset objs i ⊆ Q)) :
    Dset objs j ∩ F.toFinset ⊆ Dset objs j \ Q := by
  intro x hx
  rw [Finset.mem_inter] at hx
  rw [Finset.mem_sdiff]
  exact ⟨hx.1, ((hF x).mp (List.mem_toFinset.mp hx.2)).2.1⟩

theorem peelStep_fst (objs : List Objs) (Q : Finset ℕ) (c : ℕ → ℤ) (F : List ℕ)
    (hFnd : F.Nodup)
    (hF : ∀ i, i ∈ F ↔ (i < objs.length ∧ i ∉ Q ∧ Dset objs i ⊆ Q))
    (hc : ∀ j, j < objs.length → c j = ((Dset objs j \ Q).card : ℤ)) :
    ∀ j, j < objs.length →
      (applyDecs (F.flatMap (dominatedBy objs)) c).1 j =
        ((Dset objs j \ (Q ∪ F.toFinset)).card : ℤ) := by
  intro j hj
  have hFsub : ∀ i ∈ F, i < objs.length := fun i hi => ((hF i).mp hi).1
  rw [applyDecs_fst, hc j hj, count_decList objs F j hj,
    filter_length_eq_card_inter objs F j hFnd hFsub]
  have hsub := inter_subset_sdiff objs Q F j hF
  have hset : Dset objs j \ (Q ∪ F.toFinset) =
      (Dset objs j \ Q) \ (Dset objs j ∩ F.toFinset) := by
    ext x
    simp only [Finset.mem_sdiff, Finset.mem_union, Finset.mem_inter]
    tauto
  rw [hset, Finset.card_sdiff hsub]
  have hle := Finset.card_le_card hsub
  omega

theorem peelStep_mem (objs : List Objs) (Q : Finset ℕ) (c : ℕ → ℤ) (F : List ℕ)
    (hFnd : F.Nodup)
    (hQclosed : ∀ j ∈ Q, Dset objs j ⊆ Q)
    (hF : ∀ i, i ∈ F ↔ (i < objs.length ∧ i ∉ Q ∧ Dset objs i ⊆ Q))
    (hc : ∀ j, j < objs.length → c j = ((Dset objs j \ Q).card : ℤ)) :
    ∀ j, j ∈ (applyDecs (F.flatMap (dominatedBy objs)) c).2 ↔
      (j < objs.length ∧ j ∉ Q ∪ F.toFinset ∧ Dset objs j ⊆ Q ∪ F.toFinset) := by
  intro j
  rw [applyDecs_mem]
  by_cases hj : j < objs.length
  · rw [count_decList objs F j hj,
      filter_length_eq_card_inter objs F j hFnd (fun i hi => ((hF i).mp hi).1),
      hc j hj]
    have hsub := inter_subset_sdiff objs Q F j hF
    constructor
    · rintro ⟨h1, h2⟩
      have hcards : (Dset objs j \ Q).card ≤ (Dset objs j ∩ F.toFinset).card := by
        exact_mod_cast h2
      have heq : Dset objs j ∩ F.toFinset = Dset objs j \ Q :=
        Finset.eq_of_subset_of_card_le hsub hcards
      have hDsub : Dset objs j ⊆ Q ∪ F.toFinset := by
        intro x hx
        rw [Finset.mem_union]
        by_cases hxQ : x ∈ Q
        · exact Or.inl hxQ
        · have : x ∈ Dset objs j \ Q := Finset.mem_sdiff.mpr ⟨hx, hxQ⟩
          rw [← heq] at this
          exact Or.inr (Finset.mem_inter.mp this).2
      have hjQ : j ∉ Q := by
        intro hjQ
        have : Dset objs j \ Q = ∅ :=
          Finset.sdiff_eq_empty_iff_subset.mpr (hQclosed j hjQ)
        rw [this] at h1
        simp at h1
      have hjF : j ∉ F.toFinset := by
        intro hjF
        have : Dset objs j ⊆ Q := ((hF j).mp (List.mem_toFinset.mp hjF)).2.2
        have hempty : Dset objs j \ Q = ∅ := Finset.sdiff_eq_empty_iff_subset.mpr this
        rw [hempty] at h1
        simp at h1
      refine ⟨hj, ?_, hDsub⟩
      rw [Finset.mem_union]
      rintro (h | h)
      · exact hjQ h
      · exact hjF h
    · rintro ⟨-, hjQF, hDsub⟩
      rw [Finset.mem_union] at hjQF
      push_neg at hjQF
      have hnsub : ¬ Dset objs j ⊆ Q := by
        intro hDQ
        exact hjQF.2 (List.mem_toFinset.mpr ((hF j).mpr ⟨hj, hjQF.1, hDQ⟩))
      have h1 : 0 < (Dset objs j \ Q).card := by
        rw [Finset.card_pos]
        rcases Finset.not_subset.mp hnsub with ⟨x, hxD, hxQ⟩
        exact ⟨x, Finset.mem_sdiff.mpr ⟨hxD, hxQ⟩⟩
      have h2 : Dset objs j \ Q ⊆ Dset objs j ∩ F.toFinset := by
        intro x hx
        rw [Finset.mem_sdiff] at hx
        rw [Finset.mem_inter]
        rcases Finset.mem_union.mp (hDsub hx.1) with h | h
        · exact absurd h hx.2
        · exact ⟨hx.1, h⟩
      have := Finset.card_le_card h2
      constructor
      · exact_mod_cast h1
      · exact_mod_cast this
  · rw [count_decList_zero objs F j hj]
    constructor
    · rintro ⟨h1, h2⟩
      omega
    · rintro ⟨h, -⟩
      exact absurd h hj

theorem exists_unblocked (objs : List Objs) (S : Finset ℕ)
    (hS : S.Nonempty) : ∃ u ∈ S, ∀ i ∈ Dset objs u, i ∉ S := by
  obtain ⟨u, huS, hmin⟩ := Finset.exists_min_image S (count0 objs) hS
  refine ⟨u, huS, fun i hiD hiS => ?_⟩
  rw [mem_Dset] at hiD
  exact absurd (hmin i hiS) (not_le.mpr (count0_lt_of_dom hiD.1 hiD.2))

theorem chain_of_empty_next (objs : List Objs) (Q2 : Finset ℕ)
    (hQ2sub : Q2 ⊆ Finset.range objs.length)
    (hforced : ∀ j, (j < objs.length ∧ j ∉ Q2 ∧ Dset objs j ⊆ Q2) → False) :
    Q2 = Finset.range objs.length := by
  by_contra hne
  have hS : (Finset.range objs.length \ Q2).Nonempty := by
    rw [Finset.sdiff_nonempty]
    intro hsub
    exact hne (Finset.Subset.antisymm hQ2sub hsub)
  obtain ⟨u, huS, humin⟩ := exists_unblocked objs _ hS
  rw [Finset.mem_sdiff, Finset.mem_range] at huS
  refine hforced u ⟨huS.1, huS.2, fun i hiD => ?_⟩
  have hin : i ∈ Finset.range objs.length := by
    rw [Finset.mem_range]
    exact (mem_Dset.mp hiD).1
  by_contra hiQ
  exact humin i hiD (Finset.mem_sdiff.mpr ⟨hin, hiQ⟩)

theorem peelRest_chain (objs : List Objs) : ∀ (fuel : ℕ) (Q : Finset ℕ)
    (c : ℕ → ℤ) (F : List ℕ),
    Q ⊆ Finset.range objs.length →
    (∀ j ∈ Q, Dset objs j ⊆ Q) →
    (∀ i, i ∈ F ↔ (i < objs.length ∧ i ∉ Q ∧ Dset objs i ⊆ Q)) →
    F.Nodup →
    (∀ j, j < objs.length → c j = ((Dset objs j \ Q).card : ℤ)) →
    objs.length ≤ fuel + (Q ∪ F.toFinset).card →
    FrontChain objs (Q ∪ F.toFinset) (peelRest objs fuel c F) := by
  intro fuel
  induction fuel with
  | zero =>
    intro Q c F hQsub hQclosed hF hFnd hc hfuel
    show FrontChain objs (Q ∪ F.toFinset) []
    refine FrontChain.nil _ ?_
    have hsub : Q ∪ F.toFinset ⊆ Finset.range objs.length := by
      refine Finset.union_subset hQsub ?_
      intro x hx
      rw [Finset.mem_range]
      exact ((hF x).mp (List.mem_toFinset.mp hx)).1
    refine Finset.Subset.antisymm hsub ?_
    have hcard : (Finset.range objs.length).card ≤ (Q ∪ F.toFinset).card := by
      rw [Finset.card_range]
      omega
    rw [Finset.eq_of_subset_of_card_le hsub hcard]
  | succ fuel ih =>
    intro Q c F hQsub hQclosed hF hFnd hc hfuel
    have hQ2sub : Q ∪ F.toFinset ⊆ Finset.range objs.length := by
      refine Finset.union_subset hQsub ?_
      intro x hx
      rw [Finset.mem_range]
      exact ((hF x).mp (List.mem_toFinset.mp hx)).1
    have hQ2closed : ∀ j ∈ Q ∪ F.toFinset, Dset objs j ⊆ Q ∪ F.toFinset := by
      intro j hj
      rcases Finset.mem_union.mp hj with hj | hj
      · exact (hQclosed j hj).trans Finset.subset_union_left
      · exact (((hF j).mp (List.mem_toFinset.mp hj)).2.2).trans Finset.subset_union_left
    have hmem := peelStep_mem objs Q c F hFnd hQclosed hF hc
    have hfst := peelStep_fst objs Q c F hFnd hF hc
    show FrontChain objs (Q ∪ F.toFinset)
      (if (applyDecs (F.flatMap (dominatedBy objs)) c).2.isEmpty then []
       else (applyDecs (F.flatMap (dominatedBy objs)) c).2 ::
         peelRest objs fuel (applyDecs (F.flatMap (dominatedBy objs)) c).1
           (applyDecs (F.flatMap (dominatedBy objs)) c).2)
    by_cases hempty : (applyDecs (F.flatMap (dominatedBy objs)) c).2.isEmpty = true
    · rw [if_pos hempty]
      refine FrontChain.nil _ (chain_of_empty_next objs _ hQ2sub (fun j hj => ?_))
      have : j ∈ (applyDecs (F.flatMap (dominatedBy objs)) c).2 := (hmem j).mpr hj
      rw [List.isEmpty_iff.mp hempty] at this
      exact List.not_mem_nil j this
    · rw [if_neg hempty]
      have hne : (applyDecs (F.flatMap (dominatedBy objs)) c).2 ≠ [] := by
        intro h
        rw [h] at hempty
        exact hempty rfl
      refine FrontChain.cons _ _ _ hne (applyDecs_nodup _ _) hmem ?_
      have hnewne : ((applyDecs (F.flatMap (dominatedBy objs)) c).2).toFinset.Nonempty := by
        rcases List.exists_mem_of_ne_nil _ hne with ⟨x, hx⟩
        exact ⟨x, List.mem_toFinset.mpr hx⟩
      have hdisj : ∀ x ∈ ((applyDecs (F.flatMap (dominatedBy objs)) c).2).toFinset,
          x ∉ Q ∪ F.toFinset := by
        intro x hx
        exact (((hmem x).mp (List.mem_toFinset.mp hx))).2.1
      have hcard : (Q ∪ F.toFinset).card <
          ((Q ∪ F.toFinset) ∪ ((applyDecs (F.flatMap (dominatedBy objs)) c).2).toFinset).card := by
        obtain ⟨x, hx⟩ := hnewne
        refine Finset.card_lt_card ⟨Finset.subset_union_left, fun hsub => ?_⟩
        exact hdisj x hx (hsub (Finset.mem_union_right _ hx))
      exact ih (Q ∪ F.toFinset) _ _ hQ2sub hQ2closed hmem (applyDecs_nodup _ _)
        hfst (by omega)

theorem front0_char (objs : List Objs) (i : ℕ) :
    i ∈ front0 objs ↔ (i < objs.length ∧ i ∉ (∅ : Finset ℕ) ∧ Dset objs i ⊆ ∅) := by
  unfold front0
  rw [List.mem_filter, List.mem_range]
  simp only [Finset.not_mem_empty, not_false_iff, true_and, Finset.subset_empty]
  constructor
  · rintro ⟨h1, h2⟩
    refine ⟨h1, ?_⟩
    have : (Dset objs i).card = 0 := by
      rw [← count0_eq_card]
      simpa using h2
    exact Finset.card_eq_zero.mp this
  · rintro ⟨h1, h2⟩
    refine ⟨h1, ?_⟩
    have : count0 objs i = 0 := by
      rw [count0_eq_card, h2]
      rfl
    simpa using this

theorem frontsOf_chain (objs : List Objs) :
    FrontChain objs ∅ (frontsOf objs) := by
  unfold frontsOf
  by_cases hempty : (front0 objs).isEmpty = true
  · rw [if_pos hempty]
    refine FrontChain.nil _ ?_
    symm
    refine chain_of_empty_next objs ∅ (Finset.empty_subset _) (fun j hj => ?_) |>.symm
    have : j ∈ front0 objs := (front0_char objs j).mpr hj
    rw [List.isEmpty_iff.mp hempty] at this
    exact List.not_mem_nil j this
  · rw [if_neg hempty]
    have hne : front0 objs ≠ [] := by
      intro h
      rw [h] at hempty
      exact hempty rfl
    have hnd : (front0 objs).Nodup := List.Nodup.filter _ (List.nodup_range _)
    refine FrontChain.cons _ _ _ hne hnd (front0_char objs) ?_
    have hch := peelRest_chain objs objs.length ∅
      (fun j => (count0 objs j : ℤ)) (front0 objs)
      (Finset.empty_subset _) (by simp) (front0_char objs) hnd
      (fun j hj => by simp only []; rw [count0_eq_card, Finset.sdiff_empty])
      (by omega)
    simpa using hch

theorem chain_front_sub {objs : List Objs} {Q : Finset ℕ} {FS : List (List ℕ)}
    (h : FrontChain objs Q FS) :
    ∀ k, k < FS.length → ∀ j ∈ FS.getD k [], j < objs.length ∧ j ∉ Q := by
  induction h with
  | nil Q hQ => intro k hk; simp at hk
  | cons Q F FS hne hnd hchar hrest ih =>
    intro k hk j hj
    cases k with
    | zero =>
      have := (hchar j).mp hj
      exact ⟨this.1, this.2.1⟩
    | succ k =>
      have := ih k (by simpa using hk) j hj
      refine ⟨this.1, fun hjQ => this.2 (Finset.mem_union_left _ hjQ)⟩

theorem chain_mem_unique {objs : List Objs} {Q : Finset ℕ} {FS : List (List ℕ)}
    (h : FrontChain objs Q FS) :
    ∀ k1 k2 j, k1 < FS.length → k2 < FS.length →
      j ∈ FS.getD k1 [] → j ∈ FS.getD k2 [] → k1 = k2 := by
  induction h with
  | nil Q hQ => intro k1 k2 j hk1; simp at hk1
  | cons Q F FS hne hnd hchar hrest ih =>
    intro k1 k2 j hk1 hk2 hj1 hj2
    cases k1 with
    | zero =>
      cases k2 with
      | zero => rfl
      | succ k2 =>
        have hsub := chain_front_sub hrest k2 (by simpa using hk2) j hj2
        exact absurd (Finset.mem_union_right _ (List.mem_toFinset.mpr hj1)) hsub.2
    | succ k1 =>
      cases k2 with
      | zero =>
        have hsub := chain_front_sub hrest k1 (by simpa using hk1) j hj1
        exact absurd (Finset.mem_union_right _ (List.mem_toFinset.mpr hj2)) hsub.2
      | succ k2 =>
        have := ih k1 k2 j (by simpa using hk1) (by simpa using hk2) hj1 hj2
        omega

theorem chain_cover {objs : List Objs} {Q : Finset ℕ} {FS : List (List ℕ)}
    (h : FrontChain objs Q FS) :
    ∀ j, j < objs.length → j ∉ Q → ∃ k, k < FS.length ∧ j ∈ FS.getD k [] := by
  induction h with
  | nil Q hQ =>
    intro j hj hjQ
    rw [hQ] at hjQ
    exact absurd (Finset.mem_range.mpr hj) hjQ
  | cons Q F FS hne hnd hchar hrest ih =>
    intro j hj hjQ
    by_cases hjF : j ∈ F
    · exact ⟨0, by simp, hjF⟩
    · have hjQ2 : j ∉ Q ∪ F.toFinset := by
        rw [Finset.mem_union]
        rintro (h | h)
        · exact hjQ h
        · exact hjF (List.mem_toFinset.mp h)
      obtain ⟨k, hk, hjk⟩ := ih j hj hjQ2
      exact ⟨k + 1, by simpa using hk, hjk⟩

theorem chain_nonempty {objs : List Objs} {Q : Finset ℕ} {FS : List (List ℕ)}
    (h : FrontChain objs Q FS) : ∀ F ∈ FS, F ≠ [] ∧ F.Nodup := by
  induction h with
  | nil Q hQ => intro F hF; exact absurd hF (List.not_mem_nil F)
  | cons Q F FS hne hnd hchar hrest ih =>
    intro F2 hF2
    rcases List.mem_cons.mp hF2 with rfl | hF2
    · exact ⟨hne, hnd⟩
    · exact ih F2 hF2

theorem chain_card_sum {objs : List Objs} {Q : Finset ℕ} {FS : List (List ℕ)}
    (h : FrontChain objs Q FS) :
    Q.card + (FS.map List.length).sum = objs.length := by
  induction h with
  | nil Q hQ => simp [hQ]
  | cons Q F FS hne hnd hchar hrest ih =>
    have hdisj : Disjoint Q F.toFinset := by
      rw [Finset.disjoint_right]
      intro x hx
      exact ((hchar x).mp (List.mem_toFinset.mp hx)).2.1
    have hcard : (Q ∪ F.toFinset).card = Q.card + F.length := by
      rw [Finset.card_union_of_disjoint hdisj, List.toFinset_card_of_nodup hnd]
    rw [List.map_cons, List.sum_cons]
    omega

theorem findIdx_fronts : ∀ (FS : List (List ℕ)) (j k start : ℕ), k < FS.length →
    j ∈ FS.getD k [] → (∀ k2, k2 < k → j ∉ FS.getD k2 []) →
    List.findIdx? (fun F => F.contains j) FS start = some (start + k)
  | [], j, k, start, hk, _, _ => by simp at hk
  | F :: FS, j, k, start, hk, hj, huniq => by
    cases k with
    | zero =>
      rw [List.findIdx?_cons]
      rw [if_pos (by simpa [List.contains, List.elem_iff] using hj)]
      rfl
    | succ k =>
      have hjF : j ∉ F := huniq 0 (Nat.succ_pos k)
      rw [List.findIdx?_cons]
      rw [if_neg (by simpa [List.contains, List.elem_iff] using hjF)]
      rw [findIdx_fronts FS j k (start + 1) (by simpa using hk) hj
        (fun k2 hk2 => huniq (k2 + 1) (by omega))]
      congr 1
      omega

theorem rankOf_eq (FS : List (List ℕ)) (stale : ℤ) (j k : ℕ) (hk : k < FS.length)
    (hj : j ∈ FS.getD k []) (huniq : ∀ k2, k2 < k → j ∉ FS.getD k2 []) :
    rankOf FS stale j = (k : ℤ) + 1 := by
  unfold rankOf
  rw [show List.findIdx? (fun F => F.contains j) FS = some (0 + k) from
    findIdx_fronts FS j k 0 hk hj huniq]
  simp

theorem updateInds_length (fronts : List (List ℕ)) (cds : ℕ → CrowdVal) :
    ∀ (i : ℕ) (pop : List Individual), (updateInds fronts cds i pop).length = pop.length
  | _, [] => rfl
  | i, ind :: pop => by
    simp only [updateInds, List.length_cons]
    rw [updateInds_length fronts cds (i + 1) pop]

theorem updateInds_getD (fronts : List (List ℕ)) (cds : ℕ → CrowdVal) :
    ∀ (pop : List Individual) (i j : ℕ), j < pop.length →
      (updateInds fronts cds i pop).getD j default =
        { pop.getD j default with
          rank := rankOf fronts (pop.getD j default).rank (i + j),
          crowdingDistance := cds (i + j) }
  | [], i, j, hj => by simp at hj
  | ind :: pop, i, 0, hj => by simp [updateInds]
  | ind :: pop, i, j + 1, hj => by
    simp only [updateInds, List.getD_cons_succ]
    rw [updateInds_getD fronts cds pop (i + 1) j (by simpa using hj)]
    have : i + 1 + j = i + (j + 1) := by omega
    rw [this]

theorem frontsOf_first_nondom (objs : List Objs) :
    ∀ i j, i ∈ (frontsOf objs).getD 0 [] → j ∈ (frontsOf objs).getD 0 [] →
      domIdx objs i j = false := by
  have hch := frontsOf_chain objs
  generalize hFS : frontsOf objs = FS at hch ⊢
  cases hch with
  | nil Q hQ =>
    intro i j hi
    exact absurd hi (List.not_mem_nil i)
  | cons Q F FS hne hnd hchar hrest =>
    intro i j hi hj
    have hiF := (hchar i).mp hi
    have hjF := (hchar j).mp hj
    rw [← Bool.not_eq_true]
    intro hd
    have : i ∈ Dset objs j := mem_Dset.mpr ⟨hiF.1, hd⟩
    exact absurd (hjF.2.2 this) (Finset.not_mem_empty i)

theorem objAt_map_objs (pop : List Individual) (i : ℕ) (hi : i < pop.length) :
    objAt (pop.map (·.objs)) i = (pop.getD i default).objs := by
  unfold objAt
  rw [List.getD_eq_getElem _ _ (by simpa using hi), List.getElem_map,
    List.getD_eq_getElem _ _ hi]

/-- Claim C3 (confirmed): after non-dominated sorting of any population
(objective vectors are 3-component by construction of the model), every
individual belongs to exactly one front, its written rank is that front's
index plus one, the fronts are all nonempty so ranks run 1, 2, ... with no
gaps and every rank level is inhabited, and the rank-1 individuals are
pairwise non-dominating. -/
theorem claim3_rank_partition (pop : List Individual) :
    (nonDominatedSorting pop).length = pop.length ∧
    (∀ F ∈ frontsOf (pop.map (·.objs)), F ≠ []) ∧
    (∀ j, j < pop.length → ∃ k, k < (frontsOf (pop.map (·.objs))).length ∧
      j ∈ (frontsOf (pop.map (·.objs))).getD k [] ∧
      (∀ k2, k2 < (frontsOf (pop.map (·.objs))).length →
        j ∈ (frontsOf (pop.map (·.objs))).getD k2 [] → k2 = k) ∧
      ((nonDominatedSorting pop).getD j default).rank = (k : ℤ) + 1) ∧
    (∀ k, k < (frontsOf (pop.map (·.objs))).length → ∃ j, j < pop.length ∧
      ((nonDominatedSorting pop).getD j default).rank = (k : ℤ) + 1) ∧
    (∀ i j, i < pop.length → j < pop.length → i ≠ j →
      ((nonDominatedSorting pop).getD i default).rank = 1 →
      ((nonDominatedSorting pop).getD j default).rank = 1 →
      dominates ((nonDominatedSorting pop).getD i default).objs
        ((nonDominatedSorting pop).getD j default).objs = false) := by
  have hlenobjs : (pop.map (·.objs)).length = pop.length := List.length_map pop _
  have hch := frontsOf_chain (pop.map (·.objs))
  have hout : nonDominatedSorting pop =
      updateInds (frontsOf (pop.map (·.objs)))
        (crowdAll (pop.map (·.objs)) (frontsOf (pop.map (·.objs)))
          (fun j => (pop.getD j default).crowdingDistance)) 0 pop := rfl
  have hrank : ∀ j, j < pop.length →
      ((nonDominatedSorting pop).getD j default).rank =
        rankOf (frontsOf (pop.map (·.objs))) ((pop.getD j default).rank) j := by
    intro j hj
    rw [hout, updateInds_getD _ _ pop 0 j hj]
    simp
  have hobjs : ∀ j, j < pop.length →
      ((nonDominatedSorting pop).getD j default).objs = (pop.getD j default).objs := by
    intro j hj
    rw [hout, updateInds_getD _ _ pop 0 j hj]
  have hmemrank : ∀ j k, j < pop.length →
      k < (frontsOf (pop.map (·.objs))).length →
      j ∈ (frontsOf (pop.map (·.objs))).getD k [] →
      ((nonDominatedSorting pop).getD j default).rank = (k : ℤ) + 1 := by
    intro j k hj hk hjk
    rw [hrank j hj]
    refine rankOf_eq _ _ j k hk hjk (fun k2 hk2 hjk2 => ?_)
    have := chain_mem_unique hch k2 k j (by omega) hk hjk2 hjk
    omega
  refine ⟨by rw [hout]; exact updateInds_length _ _ 0 pop,
    fun F hF => (chain_nonempty hch F hF).1, ?_, ?_, ?_⟩
  · intro j hj
    have hjn : j < (pop.map (·.objs)).length := by rw [hlenobjs]; exact hj
    obtain ⟨k, hk, hjk⟩ := chain_cover hch j hjn (Finset.not_mem_empty j)
    exact ⟨k, hk, hjk,
      fun k2 hk2 hjk2 => chain_mem_unique hch k2 k j hk2 hk hjk2 hjk,
      hmemrank j k hj hk hjk⟩
  · intro k hk
    have hFmem : (frontsOf (pop.map (·.objs))).getD k [] ∈ frontsOf (pop.map (·.objs)) := by
      rw [List.getD_eq_getElem _ _ hk]
      exact List.getElem_mem hk
    obtain ⟨j, hj⟩ := List.exists_mem_of_ne_nil _ (chain_nonempty hch _ hFmem).1
    have hjn := (chain_front_sub hch k hk j hj).1
    have hjpop : j < pop.length := by rw [← hlenobjs]; exact hjn
    exact ⟨j, hjpop, hmemrank j k hjpop hk hj⟩
  · intro i j hi hj hij hri hrj
    have hin : i < (pop.map (·.objs)).length := by rw [hlenobjs]; exact hi
    have hjn : j < (pop.map (·.objs)).length := by rw [hlenobjs]; exact hj
    obtain ⟨ki, hki, hiki⟩ := chain_cover hch i hin (Finset.not_mem_empty i)
    obtain ⟨kj, hkj, hjkj⟩ := chain_cover hch j hjn (Finset.not_mem_empty j)
    have heqi := hmemrank i ki hi hki hiki
    have heqj := hmemrank j kj hj hkj hjkj
    rw [hri] at heqi
    rw [hrj] at heqj
    have hki0 : ki = 0 := by omega
    have hkj0 : kj = 0 := by omega
    subst hki0
    subst hkj0
    have hdom : domIdx (pop.map (·.objs)) i j = false := by
      exact frontsOf_first_nondom _ i j hiki hjkj
    rw [hobjs i hi, hobjs j hj]
    rw [← objAt_map_objs pop i hi, ← objAt_map_objs pop j hj]
    simpa [domIdx, hij] using hdom

/-- Witness for claim C3 at the concrete population cexPop9. -/
theorem claim3_rank_partition_witness :
    (nonDominatedSorting cexPop9).length = cexPop9.length ∧
    (∃ k, k < (frontsOf (cexPop9.map (·.objs))).length ∧
      0 ∈ (frontsOf (cexPop9.map (·.objs))).getD k [] ∧
      (∀ k2, k2 < (frontsOf (cexPop9.map (·.objs))).length →
        0 ∈ (frontsOf (cexPop9.map (·.objs))).getD k2 [] → k2 = k) ∧
      ((nonDominatedSorting cexPop9).getD 0 default).rank = (k : ℤ) + 1) ∧
    dominates ((nonDominatedSorting cexPop9).getD 0 default).objs
      ((nonDominatedSorting cexPop9).getD 1 default).objs = false := by
  have h := claim3_rank_partition cexPop9
  exact ⟨h.1, h.2.2.1 0 (by decide),
    h.2.2.2.2 0 1 (by decide) (by decide) (by decide) (by decide) (by decide)⟩

/-! ## Claim C6: the population size invariant -/

theorem validRNG_shift {g : RNG} (h : ValidRNG g) (k : ℕ) :
    ValidRNG (fun n => g (n + k)) :=
  fun n => h (n + k)

theorem loadLoop_validRNG (phys : Phys) (baseLoad : ℚ) :
    ∀ (n i : ℕ) (g : RNG), ValidRNG g → ValidRNG (loadLoop phys baseLoad i n g).2
  | 0, _, _, hg => hg
  | n + 1, i, g, hg => by
    have h2 := loadLoop_validRNG phys baseLoad n (i + 1) (fun m => g (m + 1))
      (validRNG_tail hg)
    unfold loadLoop RNG.next
    simp only
    rcases hE : loadLoop phys baseLoad (i + 1) n (fun m => g (m + 1)) with ⟨rest, g2⟩
    rw [hE] at h2
    simp only [hE]
    exact h2

theorem evaluateObjectives_validRNG (phys : Phys) (p : SpindleParameters)
    (duration loadFactor : ℚ) {g : RNG} (hg : ValidRNG g) :
    ValidRNG (evaluateObjectives phys p duration loadFactor g).2 := by
  have h2 := loadLoop_validRNG phys (estimateLoad p * loadFactor)
    (loadSteps duration) 0 g hg
  unfold evaluateObjectives generateDynamicLoadProfile
  rcases hE : loadLoop phys (estimateLoad p * loadFactor) 0 (loadSteps duration) g
    with ⟨prof, g2⟩
  rw [hE] at h2
  simp only [hE]
  split
  · exact h2
  · exact h2

theorem crossover_validRNG (p1 p2 : SpindleParameters) {g : RNG} (hg : ValidRNG g) :
    ValidRNG (crossover p1 p2 g).2 := by
  unfold crossover RNG.next
  simp only
  exact validRNG_tail (validRNG_tail (validRNG_tail (validRNG_tail (validRNG_tail
    (validRNG_tail (validRNG_tail (validRNG_tail (validRNG_tail (validRNG_tail hg)))))))))

theorem mutateCat_validRNG (ts : List String) (v : String) {g : RNG}
    (hg : ValidRNG g) : ValidRNG (mutateCat ts v g).2 := by
  unfold mutateCat RNG.next
  simp only
  split
  · exact validRNG_tail (validRNG_tail hg)
  · exact validRNG_tail hg

theorem mutate_validRNG (phys : Phys) (p : SpindleParameters) {g : RNG}
    (hg : ValidRNG g) : ValidRNG (mutate phys p g).2 := by
  unfold mutate
  rcases hE1 : mutateContinuous phys p.powerRating (1/2) 50 g with ⟨pr, g1⟩
  have hv1 : ValidRNG g1 := by
    have hx := mutateContinuous_validRNG phys p.powerRating (1/2) 50 hg
    rw [hE1] at hx
    exact hx
  rcases hE2 : mutateContinuous phys (p.maxSpeed : ℚ) 1000 30000 g1 with ⟨ms, g2⟩
  have hv2 : ValidRNG g2 := by
    have hx := mutateContinuous_validRNG phys (p.maxSpeed : ℚ) 1000 30000 hv1
    rw [hE2] at hx
    exact hx
  rcases hE3 : mutateContinuous phys p.wheelDiameter 50 1000 g2 with ⟨wd, g3⟩
  have hv3 : ValidRNG g3 := by
    have hx := mutateContinuous_validRNG phys p.wheelDiameter 50 1000 hv2
    rw [hE3] at hx
    exact hx
  rcases hE4 : mutateContinuous phys p.bearingPreload 100 2000 g3 with ⟨bp, g4⟩
  have hv4 : ValidRNG g4 := by
    have hx := mutateContinuous_validRNG phys p.bearingPreload 100 2000 hv3
    rw [hE4] at hx
    exact hx
  rcases hE5 : mutateContinuous phys p.alignmentTolerance (1/10000) (1/100) g4 with ⟨al, g5⟩
  have hv5 : ValidRNG g5 := by
    have hx := mutateContinuous_validRNG phys p.alignmentTolerance (1/10000) (1/100) hv4
    rw [hE5] at hx
    exact hx
  rcases hF1 : mutateCat spindleTypes p.spindleType g5 with ⟨st, g6⟩
  have hw1 : ValidRNG g6 := by
    have hx := mutateCat_validRNG spindleTypes p.spindleType hv5
    rw [hF1] at hx
    exact hx
  rcases hF2 : mutateCat bearingTypes p.bearingType g6 with ⟨bt, g7⟩
  have hw2 : ValidRNG g7 := by
    have hx := mutateCat_validRNG bearingTypes p.bearingType hw1
    rw [hF2] at hx
    exact hx
  rcases hF3 : mutateCat coolingTypes p.coolingType g7 with ⟨ct, g8⟩
  have hw3 : ValidRNG g8 := by
    have hx := mutateCat_validRNG coolingTypes p.coolingType hw2
    rw [hF3] at hx
    exact hx
  rcases hF4 : mutateCat lubricationTypes p.lubricationType g8 with ⟨lt, g9⟩
  have hw4 : ValidRNG g9 := by
    have hx := mutateCat_validRNG lubricationTypes p.lubricationType hw3
    rw [hF4] at hx
    exact hx
  rcases hF5 : mutateCat toolInterfaces p.toolInterface g9 with ⟨ti, g10⟩
  have hw5 : ValidRNG g10 := by
    have hx := mutateCat_validRNG toolInterfaces p.toolInterface hw4
    rw [hF5] at hx
    exact hx
  simp only [hE1, hE2, hE3, hE4, hE5, hF1, hF2, hF3, hF4, hF5]
  exact hw5

theorem generateRandomParameters_validRNG {g : RNG} (hg : ValidRNG g) :
    ValidRNG (generateRandomParameters g).2 := by
  unfold generateRandomParameters RNG.next
  simp only
  exact validRNG_tail (validRNG_tail (validRNG_tail (validRNG_tail (validRNG_tail
    (validRNG_tail (validRNG_tail (validRNG_tail (validRNG_tail (validRNG_tail hg)))))))))

theorem selectParents_ok (populationSize : ℤ) (pop : List Individual) {g : RNG}
    (hg : ValidRNG g) (hpop : pop.length = populationSize.toNat)
    (hpos : 0 < populationSize) :
    ∃ pr, selectParents populationSize pop g = .ok (pr, fun n => g (n + 1 + 1)) := by
  have hcast : ((populationSize.toNat : ℕ) : ℚ) = (populationSize : ℚ) := by
    exact_mod_cast congrArg (fun z : ℤ => (z : ℚ)) (Int.toNat_of_nonneg hpos.le)
  have hidx : ∀ n, (truncQ (g n * (populationSize : ℚ))).toNat < pop.length := by
    intro n
    rw [hpop]
    refine truncQ_toNat_lt populationSize.toNat
      (mul_nonneg (hg n).1 (by exact_mod_cast hpos.le)) ?_
    rw [hcast]
    have hp : (0 : ℚ) < (populationSize : ℚ) := by exact_mod_cast hpos
    nlinarith [(hg n).1, (hg n).2]
  unfold selectParents RNG.next
  simp only
  rw [if_neg (by push_neg; exact ⟨hidx 0, hidx 1⟩)]
  split
  · exact ⟨_, rfl⟩
  · exact ⟨_, rfl⟩

theorem makeOffspring_ok (phys : Phys) (cfg : Config) (pop : List Individual)
    {g : RNG} (hg : ValidRNG g) (hpop : pop.length = cfg.populationSize.toNat)
    (hpos : 0 < cfg.populationSize) :
    ∃ child g2, makeOffspring phys cfg pop g = .ok (child, g2) ∧ ValidRNG g2 ∧
      ∃ p2 g3, child.objs =
        (evaluateObjectives phys p2 cfg.duration cfg.loadFactor g3).1 := by
  obtain ⟨pr, hsel⟩ := selectParents_ok cfg.populationSize pop hg hpop hpos
  rcases pr with ⟨p1, p2⟩
  have hg2 : ValidRNG (fun n => g (n + 1 + 1)) := fun n => hg (n + 1 + 1)
  unfold makeOffspring
  rw [hsel]
  simp only
  rcases hC : crossover p1.params p2.params (fun n => g (n + 1 + 1)) with ⟨cp, gc⟩
  have hvc : ValidRNG gc := by
    have hx := crossover_validRNG p1.params p2.params hg2
    rw [hC] at hx
    exact hx
  rcases hM : mutate phys cp gc with ⟨mp, gm⟩
  have hvm : ValidRNG gm := by
    have hx := mutate_validRNG phys cp hvc
    rw [hM] at hx
    exact hx
  rcases hEv : evaluateObjectives phys mp cfg.duration cfg.loadFactor gm with ⟨o, ge⟩
  have hve : ValidRNG ge := by
    have hx := evaluateObjectives_validRNG phys mp cfg.duration cfg.loadFactor hvm
    rw [hEv] at hx
    exact hx
  simp only [hC, hM, hEv]
  exact ⟨_, _, rfl, hve, mp, gm, by rw [hEv]⟩

theorem offspringLoop_ok (phys : Phys) (cfg : Config) (pop : List Individual)
    (hpop : pop.length = cfg.populationSize.toNat) (hpos : 0 < cfg.populationSize) :
    ∀ (n : ℕ) (g : RNG), ValidRNG g →
      ∃ off g2, offspringLoop phys cfg pop n g = (.ok (off, g2), n) ∧
        off.length = n ∧ ValidRNG g2 ∧
        ∀ child ∈ off, ∃ p2 g3, child.objs =
          (evaluateObjectives phys p2 cfg.duration cfg.loadFactor g3).1
  | 0, g, hg => ⟨[], g, rfl, rfl, hg, by simp⟩
  | n + 1, g, hg => by
    obtain ⟨child, gc, hmk, hvc, hobjs⟩ := makeOffspring_ok phys cfg pop hg hpop hpos
    obtain ⟨off, g2, hloop, hlen, hv2, hall⟩ :=
      offspringLoop_ok phys cfg pop hpop hpos n gc hvc
    refine ⟨child :: off, g2, ?_, by simp [hlen], hv2, ?_⟩
    · unfold offspringLoop
      simp only [hmk, hloop]
    · intro c hc
      rcases List.mem_cons.mp hc with rfl | hc
      · exact hobjs
      · exact hall c hc

theorem envSelect_length (combined : List Individual) (N : ℕ) :
    ∀ (FS : List (List ℕ)) (acc : List Individual),
      (∀ F ∈ FS, ∀ j ∈ F, j < combined.length) →
      acc.length ≤ N → N ≤ acc.length + (FS.map List.length).sum →
      (envSelect combined N FS acc).length = N
  | [], acc, _, h1, h2 => by
    unfold envSelect
    simp only [List.map_nil, List.sum_nil, Nat.add_zero] at h2
    omega
  | F :: rest, acc, hb, h1, h2 => by
    unfold envSelect
    by_cases hfit : acc.length + F.length ≤ N
    · rw [if_pos hfit]
      have hFeq : F.filter (fun i => i < combined.length) = F :=
        List.filter_eq_self.mpr (fun j hj => by
          simpa using hb F (List.mem_cons_self F rest) j hj)
      rw [hFeq]
      refine envSelect_length combined N rest
        (acc ++ F.map fun i => combined.getD i default)
        (fun F2 hF2 => hb F2 (List.mem_cons_of_mem F hF2)) ?_ ?_
      · simpa using hfit
      · simp only [List.length_append, List.length_map, List.map_cons,
          List.sum_cons] at h2 ⊢
        omega
    · rw [if_neg hfit]
      by_cases hlt : acc.length < N
      · rw [if_pos hlt]
        simp only
        have htake : ∀ j ∈ (F.insertionSort (fun a b =>
            CrowdVal.gtb (combined.getD b default).crowdingDistance
              (combined.getD a default).crowdingDistance = false)).take
            (N - acc.length), j ∈ F := fun j hj => by
          have hs := List.mem_of_mem_take hj
          rwa [List.mem_insertionSort] at hs
        have hfeq : List.filter (fun i => decide (i < combined.length))
            (List.take (N - acc.length) (List.insertionSort (fun a b =>
              CrowdVal.gtb (combined.getD b default).crowdingDistance
                (combined.getD a default).crowdingDistance = false) F)) =
            List.take (N - acc.length) (List.insertionSort (fun a b =>
              CrowdVal.gtb (combined.getD b default).crowdingDistance
                (combined.getD a default).crowdingDistance = false) F) :=
          List.filter_eq_self.mpr (fun j hj => by
            simpa using hb F (List.mem_cons_self F rest) j (htake j hj))
        rw [hfeq]
        simp only [List.length_append, List.length_map, List.length_take,
          List.length_insertionSort]
        omega
      · rw [if_neg hlt]
        omega

theorem envSelect_mem (combined : List Individual) (N : ℕ) :
    ∀ (FS : List (List ℕ)) (acc : List Individual) (x : Individual),
      x ∈ envSelect combined N FS acc →
      x ∈ acc ∨ ∃ i, i < combined.length ∧ x = combined.getD i default
  | [], _, _, hx => Or.inl hx
  | F :: rest, acc, x, hx => by
    unfold envSelect at hx
    split_ifs at hx with h1 h2
    · rcases envSelect_mem combined N rest _ x hx with hacc | hi
      · rcases List.mem_append.mp hacc with h | h
        · exact Or.inl h
        · obtain ⟨i, hiF, hieq⟩ := List.mem_map.mp h
          have hib : i < combined.length := by
            simpa using (List.mem_filter.mp hiF).2
          exact Or.inr ⟨i, hib, hieq.symm⟩
      · exact Or.inr hi
    · rcases List.mem_append.mp hx with h | h
      · exact Or.inl h
      · obtain ⟨i, hiF, hieq⟩ := List.mem_map.mp h
        have hib : i < combined.length := by
          simpa using (List.mem_filter.mp hiF).2
        exact Or.inr ⟨i, hib, hieq.symm⟩
    · exact Or.inl hx

theorem nonDominatedSorting_length (pop : List Individual) :
    (nonDominatedSorting pop).length = pop.length := by
  unfold nonDominatedSorting
  exact updateInds_length _ _ 0 pop

theorem generationStep_ok (phys : Phys) (cfg : Config) (pop : List Individual)
    {g : RNG} (hg : ValidRNG g) (hpop : pop.length = cfg.populationSize.toNat)
    (hpos : 0 < cfg.populationSize) :
    ∃ off g2 k,
      offspringLoop phys cfg pop cfg.populationSize.toNat g = (.ok (off, g2), k) ∧
      off.length = cfg.populationSize.toNat ∧ ValidRNG g2 ∧
      (∀ child ∈ off, ∃ p2 g3, child.objs =
        (evaluateObjectives phys p2 cfg.duration cfg.loadFactor g3).1) ∧
      generationStep phys cfg pop g =
        (.ok (envSelect (nonDominatedSorting (pop ++ off)) cfg.populationSize.toNat
          (frontsOf ((pop ++ off).map (·.objs))) [], g2), k) ∧
      (envSelect (nonDominatedSorting (pop ++ off)) cfg.populationSize.toNat
        (frontsOf ((pop ++ off).map (·.objs))) []).length =
        cfg.populationSize.toNat := by
  obtain ⟨off, g2, hloop, hlen, hv2, hall⟩ :=
    offspringLoop_ok phys cfg pop hpop hpos cfg.populationSize.toNat g hg
  have hN : 0 < cfg.populationSize.toNat := by omega
  have hclen : (pop ++ off).length = 2 * cfg.populationSize.toNat := by
    rw [List.length_append, hpop, hlen]
    omega
  have hcne : (pop ++ off) ≠ [] := by
    intro h
    rw [h] at hclen
    simp only [List.length_nil] at hclen
    omega
  have hchain := frontsOf_chain ((pop ++ off).map (·.objs))
  have hsum : ((frontsOf ((pop ++ off).map (·.objs))).map List.length).sum =
      (pop ++ off).length := by
    have hc := chain_card_sum hchain
    simpa using hc
  have hnds_len : (nonDominatedSorting (pop ++ off)).length = (pop ++ off).length :=
    nonDominatedSorting_length _
  have hbound : ∀ F ∈ frontsOf ((pop ++ off).map (·.objs)), ∀ j ∈ F,
      j < (nonDominatedSorting (pop ++ off)).length := by
    intro F hF j hj
    obtain ⟨k, hk, hFk⟩ := List.getElem_of_mem hF
    have hsub := chain_front_sub hchain k hk j
      (by rw [List.getD_eq_getElem _ _ hk, hFk]; exact hj)
    rw [hnds_len]
    simpa using hsub.1
  have hsel_len : (envSelect (nonDominatedSorting (pop ++ off))
      cfg.populationSize.toNat (frontsOf ((pop ++ off).map (·.objs))) []).length =
      cfg.populationSize.toNat := by
    refine envSelect_length _ _ _ [] hbound (by simp) ?_
    simp only [List.length_nil, Nat.zero_add]
    rw [hsum]
    omega
  have hne2 : envSelect (nonDominatedSorting (pop ++ off)) cfg.populationSize.toNat
      (frontsOf ((pop ++ off).map (·.objs))) [] ≠ [] := by
    intro h
    rw [h] at hsel_len
    simp only [List.length_nil] at hsel_len
    omega
  refine ⟨off, g2, cfg.populationSize.toNat, hloop, hlen, hv2, hall, ?_, hsel_len⟩
  unfold generationStep
  simp only [hloop]
  have hfold : updateInds (frontsOf ((pop ++ off).map (·.objs)))
      (crowdAll ((pop ++ off).map (·.objs)) (frontsOf ((pop ++ off).map (·.objs)))
        (fun j => ((pop ++ off).getD j default).crowdingDistance)) 0 (pop ++ off) =
      nonDominatedSorting (pop ++ off) := rfl
  rw [hfold]
  rw [if_neg (fun h => hcne (List.isEmpty_iff.mp h))]
  rw [if_neg (fun h => hne2 (List.isEmpty_iff.mp h))]

theorem genLoop_ok (phys : Phys) (cfg : Config) (hpos : 0 < cfg.populationSize) :
    ∀ (n : ℕ) (pop : List Individual) (g : RNG), ValidRNG g →
      pop.length = cfg.populationSize.toNat →
      ∃ tr g2 k, genLoop phys cfg n pop g = (.ok (tr, g2), k) ∧
        tr.length = n ∧ ∀ p ∈ tr, p.length = cfg.populationSize.toNat
  | 0, pop, g, _, _ => ⟨[], g, 0, rfl, rfl, by simp⟩
  | n + 1, pop, g, hg, hpop => by
    obtain ⟨off, g2, k, hloop, hlen, hv2, hall, hstep, hsel_len⟩ :=
      generationStep_ok phys cfg pop hg hpop hpos
    obtain ⟨newPop, hNP⟩ : ∃ y, y = envSelect (nonDominatedSorting (pop ++ off))
        cfg.populationSize.toNat (frontsOf ((pop ++ off).map (·.objs))) [] := ⟨_, rfl⟩
    rw [← hNP] at hstep hsel_len
    obtain ⟨tr, g3, k2, hloop2, htrlen, htrall⟩ :=
      genLoop_ok phys cfg hpos n newPop g2 hv2 hsel_len
    refine ⟨newPop :: tr, g3, k + k2, ?_, by simp [htrlen], ?_⟩
    · unfold genLoop
      simp only [hstep, hloop2]
    · intro p hp
      rcases List.mem_cons.mp hp with rfl | hp
      · exact hsel_len
      · exact htrall p hp

theorem initLoop_props (phys : Phys) (cfg : Config) :
    ∀ (n : ℕ) (g : RNG), ValidRNG g →
      (initLoop phys cfg n g).1.length = n ∧ ValidRNG (initLoop phys cfg n g).2 ∧
      ∀ ind ∈ (initLoop phys cfg n g).1, ∃ p2 g3, ind.objs =
        (evaluateObjectives phys p2 cfg.duration cfg.loadFactor g3).1
  | 0, g, hg => ⟨rfl, hg, by simp [initLoop]⟩
  | n + 1, g, hg => by
    unfold initLoop
    rcases hP : generateRandomParameters g with ⟨p, gp⟩
    have hvp : ValidRNG gp := by
      have hx := generateRandomParameters_validRNG hg
      rw [hP] at hx
      exact hx
    rcases hE : evaluateObjectives phys p cfg.duration cfg.loadFactor gp with ⟨o, ge⟩
    have hve : ValidRNG ge := by
      have hx := evaluateObjectives_validRNG phys p cfg.duration cfg.loadFactor hvp
      rw [hE] at hx
      exact hx
    obtain ⟨hlen, hv, hall⟩ := initLoop_props phys cfg n ge hve
    simp only [hP, hE]
    refine ⟨by simp [hlen], hv, ?_⟩
    intro ind hind
    rcases List.mem_cons.mp hind with rfl | hind
    · exact ⟨p, gp, by rw [hE]⟩
    · exact hall ind hind

/-- Claim C6 (confirmed): for every configuration that passes validation and
every uniform draw stream the run succeeds, the population recorded at the
end of every generation — every entry of the trace, and the initial
population — has size exactly populationSize, and inside every generation
the combined population formed after the offspring loop (Combine) has size
exactly two times populationSize before the selection step truncates it
back. -/
theorem claim6_population_size (phys : Phys) (cfg : Config) (g : RNG)
    (hcfg : ValidConfig cfg) (hg : ValidRNG g) :
    ∃ res, (optimizeSpindleArrangement phys cfg g).1 = .ok res ∧
      res.initialPop.length = cfg.populationSize.toNat ∧
      res.trace.length = cfg.generations.toNat ∧
      (∀ pop ∈ res.trace, pop.length = cfg.populationSize.toNat) ∧
      (∀ pop g2, pop.length = cfg.populationSize.toNat → ValidRNG g2 →
        ∃ off g3 k, offspringLoop phys cfg pop cfg.populationSize.toNat g2 =
            (.ok (off, g3), k) ∧
          (pop ++ off).length = 2 * cfg.populationSize.toNat) := by
  obtain ⟨hd, hlf1, hlf2, hps, hgen⟩ := hcfg
  have hpos : 0 < cfg.populationSize := by omega
  unfold optimizeSpindleArrangement
  rw [if_neg (by push_neg; exact hd), if_neg (by push_neg; exact ⟨hlf1, hlf2⟩),
    if_neg (by push_neg; exact ⟨by omega, by omega⟩)]
  obtain ⟨hilen, hiv, _⟩ := initLoop_props phys cfg cfg.populationSize.toNat g hg
  have hpop1 : (nonDominatedSorting (initLoop phys cfg
      cfg.populationSize.toNat g).1).length = cfg.populationSize.toNat := by
    rw [nonDominatedSorting_length]
    exact hilen
  obtain ⟨tr, g2, k, hloop, htrlen, htrall⟩ :=
    genLoop_ok phys cfg hpos cfg.generations.toNat _ _ hiv hpop1
  simp only [hloop]
  refine ⟨_, rfl, hpop1, htrlen, htrall, ?_⟩
  intro pop gx hplen hgx
  obtain ⟨off, g3, hloopx, hlenx, _, _⟩ :=
    offspringLoop_ok phys cfg pop hplen hpos cfg.populationSize.toNat gx hgx
  refine ⟨off, g3, cfg.populationSize.toNat, hloopx, ?_⟩
  rw [List.length_append, hplen, hlenx]
  omega

/-- Witness for claim C6 at a concrete configuration and stream. -/
theorem claim6_population_size_witness :
    ∃ res, (optimizeSpindleArrangement physW ⟨1, 1, 10, 1⟩ gW).1 = .ok res ∧
      res.initialPop.length = (10 : ℤ).toNat ∧
      res.trace.length = (1 : ℤ).toNat ∧
      (∀ pop ∈ res.trace, pop.length = (10 : ℤ).toNat) ∧
      (∀ pop g2, pop.length = (10 : ℤ).toNat → ValidRNG g2 →
        ∃ off g3 k, offspringLoop physW ⟨1, 1, 10, 1⟩ pop (10 : ℤ).toNat g2 =
            (.ok (off, g3), k) ∧
          (pop ++ off).length = 2 * (10 : ℤ).toNat) := by
  have h := claim6_population_size physW ⟨1, 1, 10, 1⟩ gW
    (by unfold ValidConfig; norm_num) (fun _ => by norm_num [gW])
  exact h

/-! ## Claim C10: sub-time-step durations and the all-sentinel run -/

theorem evaluateObjectives_sentinel (phys : Phys) (p : SpindleParameters)
    {duration : ℚ} (loadFactor : ℚ) (g : RNG) (h : duration < 1/10) :
    evaluateObjectives phys p duration loadFactor g = (sentinelObjs, g) := by
  unfold evaluateObjectives
  rw [loadProfile_empty phys p duration loadFactor g h]
  rfl

theorem Dset_const_empty {objs : List Objs}
    (hconst : ∀ a ∈ objs, a = sentinelObjs) {j : ℕ} (hj : j < objs.length) :
    Dset objs j = ∅ := by
  unfold Dset
  have hoj : objAt objs j = sentinelObjs := by
    unfold objAt
    rw [List.getD_eq_getElem _ _ hj]
    exact hconst _ (List.getElem_mem hj)
  have hfilt : (List.range objs.length).filter (fun i => domIdx objs i j) = [] := by
    rw [List.filter_eq_nil_iff]
    intro i hi
    have hin : i < objs.length := List.mem_range.mp hi
    have hoi : objAt objs i = sentinelObjs := by
      unfold objAt
      rw [List.getD_eq_getElem _ _ hin]
      exact hconst _ (List.getElem_mem hin)
    simp [domIdx, hoi, hoj, dominates_irrefl]
  rw [hfilt]
  rfl

theorem rankOf_const_one {objs : List Objs}
    (hconst : ∀ a ∈ objs, a = sentinelObjs) {j : ℕ} (hj : j < objs.length)
    (stale : ℤ) : rankOf (frontsOf objs) stale j = 1 := by
  have hchain := frontsOf_chain objs
  rcases hFS : frontsOf objs with _ | ⟨F, FS⟩
  · rw [hFS] at hchain
    exfalso
    cases hchain with
    | nil Q hQ =>
      have hmem : j ∈ Finset.range objs.length := Finset.mem_range.mpr hj
      rw [← hQ] at hmem
      exact Finset.not_mem_empty j hmem
  · rw [hFS] at hchain
    have hjF : j ∈ F := by
      cases hchain with
      | cons Q F FS hne hnd hchar hrest =>
        exact (hchar j).mpr ⟨hj, Finset.not_mem_empty j, by
          rw [Dset_const_empty hconst hj]⟩
    have hr := rankOf_eq (F :: FS) stale j 0 (by simp) (by simpa using hjF)
      (fun k2 hk2 => absurd hk2 (Nat.not_lt_zero k2))
    simpa using hr

theorem mem_getD_of_mem {α : Type} [Inhabited α] {l : List α} {x : α} (hx : x ∈ l) :
    ∃ i, i < l.length ∧ x = l.getD i default := by
  obtain ⟨i, hi, hgi⟩ := List.getElem_of_mem hx
  exact ⟨i, hi, by rw [List.getD_eq_getElem _ _ hi, hgi]⟩

theorem nonDominatedSorting_getD (pop : List Individual) {j : ℕ}
    (hj : j < pop.length) :
    (nonDominatedSorting pop).getD j default =
      { pop.getD j default with
        rank := rankOf (frontsOf (pop.map (·.objs))) ((pop.getD j default).rank) j,
        crowdingDistance := crowdAll (pop.map (·.objs)) (frontsOf (pop.map (·.objs)))
          (fun i => (pop.getD i default).crowdingDistance) j } := by
  unfold nonDominatedSorting
  have h := updateInds_getD (frontsOf (pop.map (·.objs)))
    (crowdAll (pop.map (·.objs)) (frontsOf (pop.map (·.objs)))
      (fun i => (pop.getD i default).crowdingDistance)) pop 0 j hj
  simpa using h

theorem envSelect_nds_sentinel (combined : List Individual) (N : ℕ)
    (hsent : ∀ x ∈ combined, x.objs = sentinelObjs) :
    ∀ x ∈ envSelect (nonDominatedSorting combined) N
        (frontsOf (combined.map (·.objs))) [],
      x.objs = sentinelObjs ∧ x.rank = 1 := by
  intro x hx
  rcases envSelect_mem (nonDominatedSorting combined) N _ [] x hx with h | ⟨i, hi, hxi⟩
  · simp at h
  · rw [nonDominatedSorting_length] at hi
    have hconst : ∀ a ∈ combined.map (·.objs), a = sentinelObjs := by
      intro a ha
      obtain ⟨y, hy, hya⟩ := List.mem_map.mp ha
      rw [← hya]
      exact hsent y hy
    have hmem : combined.getD i default ∈ combined := by
      rw [List.getD_eq_getElem _ _ hi]
      exact List.getElem_mem hi
    have hi2 : i < (combined.map (·.objs)).length := by
      rw [List.length_map]
      exact hi
    rw [hxi, nonDominatedSorting_getD combined hi]
    constructor
    · show (combined.getD i default).objs = sentinelObjs
      exact hsent _ hmem
    · show rankOf (frontsOf (combined.map (·.objs)))
        ((combined.getD i default).rank) i = 1
      exact rankOf_const_one hconst hi2 _

theorem genLoop_sentinel (phys : Phys) (cfg : Config)
    (hpos : 0 < cfg.populationSize) (hdur : cfg.duration < 1/10) :
    ∀ (n : ℕ) (pop : List Individual) (g : RNG), ValidRNG g →
      pop.length = cfg.populationSize.toNat →
      (∀ x ∈ pop, x.objs = sentinelObjs) →
      ∃ tr g2 k, genLoop phys cfg n pop g = (.ok (tr, g2), k) ∧
        tr.length = n ∧
        ∀ p ∈ tr, p.length = cfg.populationSize.toNat ∧
          ∀ x ∈ p, x.objs = sentinelObjs ∧ x.rank = 1
  | 0, pop, g, _, _, _ => ⟨[], g, 0, rfl, rfl, by simp⟩
  | n + 1, pop, g, hg, hpop, hsent => by
    obtain ⟨off, g2, k, hloop, hlen, hv2, hall, hstep, hsel_len⟩ :=
      generationStep_ok phys cfg pop hg hpop hpos
    have hcsent : ∀ x ∈ pop ++ off, x.objs = sentinelObjs := by
      intro x hx
      rcases List.mem_append.mp hx with h | h
      · exact hsent x h
      · obtain ⟨p2, g3, hobj⟩ := hall x h
        rw [hobj, evaluateObjectives_sentinel phys p2 cfg.loadFactor g3 hdur]
    have hnp := envSelect_nds_sentinel (pop ++ off) cfg.populationSize.toNat hcsent
    obtain ⟨newPop, hNP⟩ : ∃ y, y = envSelect (nonDominatedSorting (pop ++ off))
        cfg.populationSize.toNat (frontsOf ((pop ++ off).map (·.objs))) [] := ⟨_, rfl⟩
    rw [← hNP] at hstep hsel_len hnp
    obtain ⟨tr, g3, k2, hloop2, htrlen, htrall⟩ :=
      genLoop_sentinel phys cfg hpos hdur n newPop g2 hv2 hsel_len
        (fun x hx => (hnp x hx).1)
    refine ⟨newPop :: tr, g3, k + k2, ?_, by simp [htrlen], ?_⟩
    · unfold genLoop
      simp only [hstep, hloop2]
    · intro p hp
      rcases List.mem_cons.mp hp with rfl | hp
      · exact ⟨hsel_len, hnp⟩
      · exact htrall p hp

/-- Claim C10 (confirmed): with a valid configuration whose duration is
below one 0.1-second time step, the step count truncates to zero, so
generateDynamicLoadProfile returns the empty profile for every individual
and stream, evaluateObjectives therefore assigns the sentinel worst-case
vector (1e10, -1e-10, 1e10) to every individual in every generation, and
the run still completes, reporting a nonempty Pareto front consisting
entirely of sentinel-valued individuals. -/
theorem claim10_short_duration_sentinel_run (phys : Phys) (cfg : Config) (g : RNG)
    (hcfg : ValidConfig cfg) (hg : ValidRNG g) (hdur : cfg.duration < 1/10) :
    (∀ p g2, generateDynamicLoadProfile phys p cfg.duration cfg.loadFactor g2 =
      ([], g2)) ∧
    (∀ p g2, (evaluateObjectives phys p cfg.duration cfg.loadFactor g2).1 =
      sentinelObjs) ∧
    ∃ res, (optimizeSpindleArrangement phys cfg g).1 = .ok res ∧
      (∀ ind ∈ res.initialPop, ind.objs = sentinelObjs) ∧
      (∀ pop ∈ res.trace, ∀ ind ∈ pop, ind.objs = sentinelObjs) ∧
      res.pareto ≠ [] ∧ (∀ ind ∈ res.pareto, ind.objs = sentinelObjs) := by
  obtain ⟨hd, hlf1, hlf2, hps, hgen⟩ := hcfg
  have hpos : 0 < cfg.populationSize := by omega
  refine ⟨fun p g2 => loadProfile_empty phys p cfg.duration cfg.loadFactor g2 hdur,
    fun p g2 => by rw [evaluateObjectives_sentinel phys p cfg.loadFactor g2 hdur],
    ?_⟩
  unfold optimizeSpindleArrangement
  rw [if_neg (by push_neg; exact hd), if_neg (by push_neg; exact ⟨hlf1, hlf2⟩),
    if_neg (by push_neg; exact ⟨by omega, by omega⟩)]
  obtain ⟨hilen, hiv, hiall⟩ := initLoop_props phys cfg cfg.populationSize.toNat g hg
  have hisent : ∀ x ∈ (initLoop phys cfg cfg.populationSize.toNat g).1,
      x.objs = sentinelObjs := by
    intro x hx
    obtain ⟨p2, g3, hobj⟩ := hiall x hx
    rw [hobj, evaluateObjectives_sentinel phys p2 cfg.loadFactor g3 hdur]
  have hp1sent : ∀ x ∈ nonDominatedSorting (initLoop phys cfg
      cfg.populationSize.toNat g).1, x.objs = sentinelObjs := by
    intro x hx
    obtain ⟨i, hi, hxi⟩ := mem_getD_of_mem hx
    rw [nonDominatedSorting_length] at hi
    rw [hxi, nonDominatedSorting_getD _ hi]
    show ((initLoop phys cfg cfg.populationSize.toNat g).1.getD i default).objs =
      sentinelObjs
    refine hisent _ ?_
    rw [List.getD_eq_getElem _ _ hi]
    exact List.getElem_mem hi
  have hpop1 : (nonDominatedSorting (initLoop phys cfg
      cfg.populationSize.toNat g).1).length = cfg.populationSize.toNat := by
    rw [nonDominatedSorting_length]
    exact hilen
  obtain ⟨tr, g2, k, hloop, htrlen, htrall⟩ :=
    genLoop_sentinel phys cfg hpos hdur cfg.generations.toNat _ _ hiv hpop1 hp1sent
  have htrne : tr ≠ [] := by
    intro h
    rw [h] at htrlen
    simp only [List.length_nil] at htrlen
    omega
  have hlast : tr.getLastD (nonDominatedSorting (initLoop phys cfg
      cfg.populationSize.toNat g).1) ∈ tr :=
    getLastD_mem tr _ htrne
  obtain ⟨hflen, hfall⟩ := htrall _ hlast
  have hfeq : (tr.getLastD (nonDominatedSorting (initLoop phys cfg
      cfg.populationSize.toNat g).1)).filter (fun ind => ind.rank = 1) =
      tr.getLastD (nonDominatedSorting (initLoop phys cfg
        cfg.populationSize.toNat g).1) :=
    List.filter_eq_self.mpr (fun x hx => by simp [(hfall x hx).2])
  simp only [hloop]
  refine ⟨_, rfl, hp1sent, fun p hp ind hind => ((htrall p hp).2 ind hind).1, ?_, ?_⟩
  · show (tr.getLastD (nonDominatedSorting (initLoop phys cfg
      cfg.populationSize.toNat g).1)).filter (fun ind => ind.rank = 1) ≠ []
    rw [hfeq]
    intro hnil
    rw [hnil] at hflen
    simp only [List.length_nil] at hflen
    omega
  · intro ind hind
    have hind2 : ind ∈ (tr.getLastD (nonDominatedSorting (initLoop phys cfg
        cfg.populationSize.toNat g).1)).filter (fun ind => ind.rank = 1) := hind
    rw [hfeq] at hind2
    exact (hfall ind hind2).1

/-- Witness for claim C10 at the concrete configuration with duration one
twentieth of a second. -/
theorem claim10_short_duration_witness :
    (∀ p g2, generateDynamicLoadProfile physW p ((1 : ℚ)/20) 1 g2 = ([], g2)) ∧
    (∀ p g2, (evaluateObjectives physW p ((1 : ℚ)/20) 1 g2).1 = sentinelObjs) ∧
    ∃ res, (optimizeSpindleArrangement physW ⟨1/20, 1, 10, 1⟩ gW).1 = .ok res ∧
      (∀ ind ∈ res.initialPop, ind.objs = sentinelObjs) ∧
      (∀ pop ∈ res.trace, ∀ ind ∈ pop, ind.objs = sentinelObjs) ∧
      res.pareto ≠ [] ∧ (∀ ind ∈ res.pareto, ind.objs = sentinelObjs) := by
  have h := claim10_short_duration_sentinel_run physW ⟨1/20, 1, 10, 1⟩ gW
    (by unfold ValidConfig; norm_num) (fun _ => by norm_num [gW]) (by norm_num)
  exact h

end Spindle
